import Mathlib

/-!
Shallow embedding of the spreadsheet/phone subsystem of the
`resultmarketing-ai` repository (files `src/utils/phone_formatter.py`,
`src/services/spreadsheet_service.py`, `src/routers/spreadsheet.py`,
`src/config.py`), together with theorems settling the specification
claims about it.

Modelling conventions:
* Python strings are `String` / `List Char`; cells of a pandas
  `DataFrame` are `Option String` (`none` models `NaN`); a frame is a
  column-name list plus rectangular rows, with the positional
  (`RangeIndex`) row index used by the pipeline.
* Python float thresholds (`count >= len * 0.6`) are modelled by the
  exact integer inequality `10 * count ≥ 6 * len`, which agrees with the
  IEEE-double computation for every list length (0.6 rounds down as a
  double, and `5 * 0.6` is exactly `3.0`).
* The floating-point `quality_score` field of the validation report is
  not modelled (floating point); no claim refers to it.
-/

set_option autoImplicit false

namespace RM

/-! ## Python string primitives on `List Char` -/

/-- `pattern.isPrefix of s`, written out structurally (Python `startswith`). -/
def listStarts : List Char → List Char → Bool
  | [], _ => true
  | _ :: _, [] => false
  | p :: ps, c :: cs => p == c && listStarts ps cs

/-- Substring occurrence (Python `in` on strings). -/
def hasSub (needle : List Char) : List Char → Bool
  | [] => listStarts needle []
  | c :: cs => listStarts needle (c :: cs) || hasSub needle cs

/-- Python `str.lower()` (ASCII, which covers every string this code handles). -/
def pyLower (l : List Char) : List Char := l.map Char.toLower

/-- Right whitespace trim: drop trailing whitespace. -/
def rightTrim (l : List Char) : List Char := (l.reverse.dropWhile Char.isWhitespace).reverse

/-- Python `str.strip()`: drop leading and trailing whitespace. -/
def pyStrip (l : List Char) : List Char := rightTrim (l.dropWhile Char.isWhitespace)

/-- Helper for `pySplit`: `cur` is the (reversed) word being read. -/
def pySplitAux (cur : List Char) : List Char → List (List Char)
  | [] => if cur.isEmpty then [] else [cur.reverse]
  | c :: rest =>
    if c.isWhitespace then
      if cur.isEmpty then pySplitAux [] rest else cur.reverse :: pySplitAux [] rest
    else pySplitAux (c :: cur) rest

/-- Python `str.split()` with no argument: split on whitespace runs, no empties. -/
def pySplit (l : List Char) : List (List Char) := pySplitAux [] l

/-- Python `str.title()` word pass: uppercase an alphabetic character that
follows a non-alphabetic one, lowercase every other alphabetic character. -/
def pyTitleAux (prevAlpha : Bool) : List Char → List Char
  | [] => []
  | c :: rest =>
    (if c.isAlpha then (if prevAlpha then c.toLower else c.toUpper) else c)
      :: pyTitleAux c.isAlpha rest

/-- Python `str.title()`. -/
def pyTitle (l : List Char) : List Char := pyTitleAux false l

/-- Python `str.isupper()`: at least one cased character and no lowercase one
(ASCII: cased = alphabetic). -/
def pyIsUpper (l : List Char) : Bool :=
  l.any Char.isAlpha && l.all (fun c => !c.isLower)

/-- Python `str.lstrip("+")`: drop every leading `+`. -/
def dropPlus (l : List Char) : List Char := l.dropWhile (· == '+')

/-- Python `str.replace(needle, repl)` for a non-empty needle, driven by an
explicit fuel argument (`fuel ≥ l.length` makes it total and faithful). -/
def pyReplaceFuel (needle repl : List Char) : Nat → List Char → List Char
  | _, [] => []
  | 0, l => l
  | fuel + 1, c :: rest =>
    if listStarts needle (c :: rest) then
      repl ++ pyReplaceFuel needle repl fuel ((c :: rest).drop needle.length)
    else c :: pyReplaceFuel needle repl fuel rest

/-- Python `str.replace` (non-empty needle). -/
def pyReplace (l needle repl : List Char) : List Char :=
  pyReplaceFuel needle repl l.length l

/-! ## `src/utils/phone_formatter.py` -/

/-- `MOBILE_PREFIXES` from `phone_formatter.py`. -/
def mobilePrefixes : List String :=
  ["10", "11", "12", "13", "14", "16", "17", "18", "19"]

/-- `LANDLINE_PREFIXES` from `phone_formatter.py`. -/
def landlinePrefixes : List String :=
  ["3", "4", "5", "6", "7", "8", "9"]

/-- `clean_phone_number`: keep only digits, re-attaching a leading `+` when the
stripped input started with one; empty input maps to the empty string. -/
def cleanPhoneNumber (phone : String) : String :=
  if phone = "" then ""
  else
    let hasPlus := listStarts ['+'] (pyStrip phone.data)
    let cleaned := phone.data.filter Char.isDigit
    String.mk (if hasPlus then '+' :: cleaned else cleaned)

/-- `is_malaysian_number`, including the fall-through from the failed
leading-`0` branch to the direct mobile-prefix check. -/
def isMalaysianNumber (phone : String) : Bool :=
  let cleaned := dropPlus (cleanPhoneNumber phone).data
  if listStarts ['6', '0'] cleaned then true
  else if listStarts ['0'] cleaned
      && (mobilePrefixes.any (fun p => listStarts p.data (cleaned.drop 1))
          || landlinePrefixes.any (fun p => listStarts p.data (cleaned.drop 1))) then
    true
  else mobilePrefixes.any (fun p => listStarts p.data cleaned)

/-- The shared stripping sequence of `format_malaysian_phone` and
`validate_malaysian_phone`: clean, drop `+`, drop a leading `60`, then a
leading `0`. -/
def strippedCore (phone : String) : List Char :=
  let c := dropPlus (cleanPhoneNumber phone).data
  let c := if listStarts ['6', '0'] c then c.drop 2 else c
  if listStarts ['0'] c then c.drop 1 else c

/-- `format_malaysian_phone`. -/
def formatMalaysianPhone (phone : String) (includeCountryCode : Bool := true) :
    Option String :=
  if phone = "" then none
  else
    let cleaned := strippedCore phone
    if cleaned.length < 8 || cleaned.length > 10 then none
    else
      let isMob := mobilePrefixes.any (fun p => listStarts p.data cleaned)
      let isLand := landlinePrefixes.any (fun p => listStarts p.data cleaned)
      if !isMob && !isLand then none
      else some (String.mk (
        if includeCountryCode then
          if isMob then
            if 9 ≤ cleaned.length then
              "+60 ".data ++ cleaned.take 2 ++ ['-'] ++ (cleaned.drop 2).take 3
                ++ [' '] ++ cleaned.drop 5
            else "+60 ".data ++ cleaned.take 2 ++ ['-'] ++ cleaned.drop 2
          else
            if 8 ≤ cleaned.length then
              "+60 ".data ++ cleaned.take 1 ++ ['-'] ++ (cleaned.drop 1).take 4
                ++ [' '] ++ cleaned.drop 5
            else "+60 ".data ++ cleaned.take 1 ++ ['-'] ++ cleaned.drop 1
        else
          if isMob then
            if 9 ≤ cleaned.length then
              '0' :: cleaned.take 2 ++ ['-'] ++ (cleaned.drop 2).take 3
                ++ [' '] ++ cleaned.drop 5
            else '0' :: cleaned.take 2 ++ ['-'] ++ cleaned.drop 2
          else
            if 8 ≤ cleaned.length then
              '0' :: cleaned.take 1 ++ ['-'] ++ (cleaned.drop 1).take 4
                ++ [' '] ++ cleaned.drop 5
            else '0' :: cleaned.take 1 ++ ['-'] ++ cleaned.drop 1))

/-- The f-string message of the invalid-prefix branch of
`validate_malaysian_phone`. -/
def invalidPrefixMsg : String :=
  "Invalid Malaysian phone prefix. Mobile should start with 10, 11, 12, 13, 14, 16, 17, 18, 19"

/-- `validate_malaysian_phone`. -/
def validateMalaysianPhone (phone : String) : Bool × String :=
  if phone = "" then (false, "Phone number is empty")
  else
    let cleaned := strippedCore phone
    if cleaned.length < 8 then (false, "Phone number is too short")
    else if cleaned.length > 10 then (false, "Phone number is too long")
    else
      let isMob := mobilePrefixes.any (fun p => listStarts p.data cleaned)
      let isLand := landlinePrefixes.any (fun p => listStarts p.data cleaned)
      if !isMob && !isLand then (false, invalidPrefixMsg)
      else (true, "Valid Malaysian phone number")

/-- `normalize_phone_for_comparison`. -/
def normalizePhoneForComparison (phone : String) : String :=
  if phone = "" then ""
  else
    let cleaned := dropPlus (cleanPhoneNumber phone).data
    if listStarts ['6', '0'] cleaned then String.mk cleaned
    else if listStarts ['0'] cleaned then String.mk ('6' :: '0' :: cleaned.drop 1)
    else String.mk ('6' :: '0' :: cleaned)

/-! ## The regular expressions of `spreadsheet_service.py`, as decidable matchers -/

/-- Character class `[a-zA-Z0-9._%+-]` (e-mail local part). -/
def emailLocalChar (c : Char) : Bool :=
  c.isAlpha || c.isDigit || c == '.' || c == '_' || c == '%' || c == '+' || c == '-'

/-- Character class `[a-zA-Z0-9.-]` (e-mail domain part). -/
def emailDomChar (c : Char) : Bool :=
  c.isAlpha || c.isDigit || c == '.' || c == '-'

/-- `re.match(r"[a-zA-Z0-9._%+-]+@[a-zA-Z0-9.-]+\.[a-zA-Z]{2,}", s)`:
the pattern matches at the start of `s` (the end is NOT anchored).  `a` is
the position of the `@` of a successful parse and `d` the position of the
dot introducing the top-level-domain part; two alphabetic characters after
`d` complete a match. -/
def emailPre (cs : List Char) : Bool :=
  (List.range cs.length).any fun a =>
    decide (1 ≤ a) && (cs.take a).all emailLocalChar && cs.getD a ' ' == '@' &&
      ((List.range cs.length).any fun d =>
        decide (a + 2 ≤ d) && ((cs.drop (a + 1)).take (d - (a + 1))).all emailDomChar &&
          cs.getD d ' ' == '.' && decide (d + 2 < cs.length) &&
          (cs.getD (d + 1) ' ').isAlpha && (cs.getD (d + 2) ' ').isAlpha)

/-- `re.match(r"^[a-zA-Z0-9._%+-]+@[a-zA-Z0-9.-]+\.[a-zA-Z]{2,}$", s)`:
the fully anchored e-mail pattern of `_clean_email` and `validate_data`. -/
def emailFull (cs : List Char) : Bool :=
  (List.range cs.length).any fun a =>
    decide (1 ≤ a) && (cs.take a).all emailLocalChar && cs.getD a ' ' == '@' &&
      ((List.range cs.length).any fun d =>
        decide (a + 2 ≤ d) && ((cs.drop (a + 1)).take (d - (a + 1))).all emailDomChar &&
          cs.getD d ' ' == '.' && decide (d + 3 ≤ cs.length) &&
          (cs.drop (d + 1)).all Char.isAlpha)

/-- `re.match(r"^\+?60[\d\s\-]+$", s)` ("Malaysian" phone shape). -/
def phoneShape1 (cs : List Char) : Bool :=
  let body := if listStarts ['+'] cs then cs.drop 1 else cs
  listStarts ['6', '0'] body && !(body.drop 2).isEmpty &&
    (body.drop 2).all (fun c => c.isDigit || c.isWhitespace || c == '-')

/-- `re.match(r"^0\d[\d\s\-]+$", s)` (local phone shape). -/
def phoneShape2 (cs : List Char) : Bool :=
  match cs with
  | c0 :: c1 :: rest =>
    c0 == '0' && c1.isDigit && !rest.isEmpty &&
      rest.all (fun c => c.isDigit || c.isWhitespace || c == '-')
  | _ => false

/-- `re.match(r"^[\d\s\-\+\(\)]{8,}$", s)` (general phone shape). -/
def phoneShape3 (cs : List Char) : Bool :=
  decide (8 ≤ cs.length) &&
    cs.all (fun c => c.isDigit || c.isWhitespace || c == '-' || c == '+' || c == '(' || c == ')')

/-- `re.match(r"^[a-zA-Z\s\.\'\-]+$", s)` (the word-characters test of the
name-like content check). -/
def nameChars (cs : List Char) : Bool :=
  !cs.isEmpty &&
    cs.all (fun c => c.isAlpha || c.isWhitespace || c == '.' || c == Char.ofNat 39 || c == '-')

/-! ## Data model: pandas frames and column mappings -/

/-- A pandas `DataFrame` as the pipeline uses it: named columns and
rectangular rows of optional strings (`none` = `NaN`), with the default
positional `RangeIndex`. -/
structure Frame where
  cols : List String
  rows : List (List (Option String))
  deriving Repr, DecidableEq

/-- Index of a column name (first occurrence). -/
def findIdx (c : String) : List String → Option Nat
  | [] => none
  | x :: xs => if x = c then some 0 else (findIdx c xs).map (· + 1)

/-- The cell of row `r` in column `c` of a frame with columns `cols`
(`none` when the column is absent — the Python code would raise there). -/
def cellAt (cols : List String) (c : String) (r : List (Option String)) : Option String :=
  match findIdx c cols with
  | some i => r.getD i none
  | none => none

/-- `df[c]` as a list of cells. -/
def Frame.getCol (f : Frame) (c : String) : List (Option String) :=
  f.rows.map (cellAt f.cols c)

/-- `df[c] = df.apply(g, axis=1)`: replace column `c` when present,
otherwise append it, the new value computed per row. -/
def Frame.setColBy (f : Frame) (c : String) (g : List (Option String) → Option String) :
    Frame :=
  match findIdx c f.cols with
  | some i => ⟨f.cols, f.rows.map (fun r => r.set i (g r))⟩
  | none => ⟨f.cols ++ [c], f.rows.map (fun r => r ++ [g r])⟩

/-- `df.drop(columns=[c])` guarded by `if c in df.columns`. -/
def Frame.dropCol (f : Frame) (c : String) : Frame :=
  match findIdx c f.cols with
  | some i => ⟨f.cols.eraseIdx i, f.rows.map (·.eraseIdx i)⟩
  | none => f

/-- `df.empty`. -/
def Frame.isEmpty (f : Frame) : Bool := f.rows.isEmpty || f.cols.isEmpty

/-- A confirmed column mapping, as the JSON dict
`{original_column: mapped_field_or_null}` (insertion-ordered pairs). -/
def Mapping := List (String × Option String)

/-- `{std: orig for orig, std in column_mappings.items() if std}` queried at
key `std`: the LAST original column mapped to a truthy `std` wins. -/
def stdLookup (m : Mapping) (std : String) : Option String :=
  (List.filterMap
    (fun p : String × Option String => if p.2 = some std then some p.1 else none) m).getLast?

/-- `(i, a)` pairs with indices starting at `i0` (row enumeration). -/
def withIdx (i0 : Nat) : List (Option String) → List (Nat × Option String)
  | [] => []
  | a :: as => (i0, a) :: withIdx (i0 + 1) as

/-! ## Column detection (`detect_columns`, `_detect_by_content`) -/

/-- `COLUMN_MAPPINGS` from `config.py`, in dict insertion order. -/
def columnMappings : List (String × List String) :=
  [("name", ["name", "full name", "contact name", "client name", "nama",
             "customer name", "prospect name"]),
   ("phone", ["phone", "mobile", "tel", "telephone", "handphone", "hp",
              "contact number", "phone number", "no tel", "no telefon"]),
   ("email", ["email", "e-mail", "email address", "emel"]),
   ("company", ["company", "organization", "organisation", "syarikat",
                "business", "firm", "company name"]),
   ("title", ["title", "position", "designation", "role", "job title", "jawatan"]),
   ("industry", ["industry", "sector", "industri", "business type"]),
   ("address", ["address", "alamat", "location", "office address"]),
   ("notes", ["notes", "remarks", "comments", "catatan", "description"]),
   ("source", ["source", "lead source", "referral", "sumber"]),
   ("status", ["status", "lead status", "stage", "pipeline stage"])]

/-- One detected column mapping result. -/
structure ColMapping where
  originalName : String
  mappedTo : Option String
  confidence : ℚ
  sampleValues : List String
  deriving Repr, DecidableEq

/-- First keyword of a list matching the lowered header by two-way substring
containment (`keyword in col_lower or col_lower in keyword`). -/
def firstKw (c : String) : List String → Option String
  | [] => none
  | k :: ks =>
    if hasSub k.data c.data || hasSub c.data k.data then some k else firstKw c ks

/-- The name-based stage of `detect_columns` over a keyword table: first
matching field wins; confidence 0.95 on exact keyword equality, else 0.8. -/
def headerDetect (c : String) : List (String × List String) → Option (String × ℚ)
  | [] => none
  | (fld, kws) :: rest =>
    match firstKw c kws with
    | some k => some (fld, if c = k then (95 : ℚ) / 100 else (8 : ℚ) / 10)
    | none => headerDetect c rest

/-- Is `s` phone-shaped for the content fallback (first matching of the
three patterns, on the stripped value)? -/
def phoneShaped (s : String) : Bool :=
  phoneShape1 (pyStrip s.data) || phoneShape2 (pyStrip s.data) || phoneShape3 (pyStrip s.data)

/-- Is `s` name-like: 2–5 whitespace-separated words of name characters? -/
def nameLike (s : String) : Bool :=
  decide (2 ≤ (pySplit s.data).length) && decide ((pySplit s.data).length ≤ 5) &&
    nameChars s.data

/-- `_detect_by_content`: majority-vote (≥ 60 %) classification of the sample
values as email (0.9), phone (0.85) or name (0.7); the thresholds
`count >= len * 0.6` are modelled exactly by `10 * count ≥ 6 * len`. -/
def detectByContent (base : ColMapping) (samples : List String) : ColMapping :=
  if samples.isEmpty then base
  else
    let n := samples.length
    let emailCount := (samples.filter (fun s => emailPre s.data)).length
    if 10 * emailCount ≥ 6 * n then
      { base with mappedTo := some "email", confidence := (9 : ℚ) / 10 }
    else
      let phoneCount := (samples.filter phoneShaped).length
      if 10 * phoneCount ≥ 6 * n then
        { base with mappedTo := some "phone", confidence := (85 : ℚ) / 100 }
      else
        let nameCount := (samples.filter nameLike).length
        if 10 * nameCount ≥ 6 * n then
          { base with mappedTo := some "name", confidence := (7 : ℚ) / 10 }
        else base

/-- Detection of a single column from its header and cells:
`sample_values = df[col].dropna().head(5)`, name-based stage first, then
the content fallback when the header matched nothing and samples exist. -/
def detectColumn (col : String) (cells : List (Option String)) : ColMapping :=
  let colLower := String.mk (pyStrip (pyLower col.data))
  let samples := (cells.filterMap id).take 5
  let base : ColMapping := ⟨col, none, 0, samples⟩
  match headerDetect colLower columnMappings with
  | some (fld, conf) => { base with mappedTo := some fld, confidence := conf }
  | none => if samples.isEmpty then base else detectByContent base samples

/-- `detect_columns`: one result per column, in column order. -/
def detectColumns (f : Frame) : List ColMapping :=
  (List.range f.cols.length).map fun i =>
    detectColumn (f.cols.getD i "") (f.rows.map (fun r => r.getD i none))

/-! ## `_clean_name` -/

/-- The honorific list of `_clean_name`. -/
def honorifics : List String :=
  ["dr", "dr.", "dato'", "datuk", "tan sri", "tun", "datin", "mr", "mrs", "ms", "prof"]

/-- `_clean_name`: title-case each word of the stripped name, preserving
verbatim any word whose lower-casing is an honorific and any fully
upper-case word; an all-whitespace name becomes null. -/
def cleanName (name : Option String) : Option String :=
  match name with
  | none => none
  | some s =>
    let words := pySplit (pyStrip s.data)
    let cleaned := words.map fun w =>
      if honorifics.contains (String.mk (pyLower w)) || pyIsUpper w then w
      else pyTitle w
    if cleaned.isEmpty then none
    else some (String.mk (List.intercalate [' '] cleaned))

/-! ## `validate_data` -/

/-- One data-quality issue. -/
structure QIssue where
  rowNumber : Nat
  column : String
  issueType : String
  description : String
  suggestedFix : String
  deriving Repr, DecidableEq

/-- The validation report (its floating-point `quality_score` is not
modelled; no claim mentions it). -/
structure QReport where
  totalRows : Nat
  validRows : Nat
  issuesCount : Nat
  issues : List QIssue
  duplicateCount : Nat
  missingPhoneCount : Nat
  missingNameCount : Nat
  invalidPhoneCount : Nat
  invalidEmailCount : Nat
  deriving Repr, DecidableEq

/-- `validate_data`: missing-name, invalid-phone and invalid-email issues in
that order, each with `row_number = index + 2`, the issue list capped at
100 entries. -/
def validateData (f : Frame) (m : Mapping) : QReport :=
  let totalRows := f.rows.length
  let nameIssues : List QIssue :=
    match stdLookup m "name" with
    | some nc =>
      (withIdx 0 (f.getCol nc)).filterMap fun p : Nat × Option String =>
        if p.2 = none then
          some ⟨p.1 + 2, nc, "missing", "Missing contact name",
                "Add contact name or remove row"⟩
        else none
    | none => []
  let missingNames :=
    match stdLookup m "name" with
    | some nc => ((f.getCol nc).filter (· = none)).length
    | none => 0
  let phoneIssues : List QIssue :=
    match stdLookup m "phone" with
    | some pc =>
      (withIdx 0 (f.getCol pc)).filterMap fun p : Nat × Option String =>
        match p.2 with
        | some s =>
          let v := validateMalaysianPhone s
          if v.1 then none
          else
            some ⟨p.1 + 2, pc, "invalid", "Invalid phone: " ++ v.2,
                  "Format as Malaysian number (+60 XX-XXX XXXX)"⟩
        | none => none
    | none => []
  let missingPhones :=
    match stdLookup m "phone" with
    | some pc => ((f.getCol pc).filter (· = none)).length
    | none => 0
  let emailIssues : List QIssue :=
    match stdLookup m "email" with
    | some ec =>
      (withIdx 0 (f.getCol ec)).filterMap fun p : Nat × Option String =>
        match p.2 with
        | some s =>
          if emailFull (pyStrip s.data) then none
          else
            some ⟨p.1 + 2, ec, "invalid", "Invalid email format",
                  "Check email address format"⟩
        | none => none
    | none => []
  let issues := nameIssues ++ phoneIssues ++ emailIssues
  { totalRows := totalRows
    validRows := totalRows - missingNames
    issuesCount := issues.length
    issues := issues.take 100
    duplicateCount := 0
    missingPhoneCount := missingPhones
    missingNameCount := missingNames
    invalidPhoneCount := phoneIssues.length
    invalidEmailCount := emailIssues.length }

/-! ## `deduplicate` -/

/-- One reported duplicate group. -/
structure DupGroup where
  key : String
  value : String
  count : Nat
  rowNumbers : List Nat
  deriving Repr, DecidableEq

/-- `col.replace("_normalized", "").replace("_", "")`. -/
def dedupKeyName (col : String) : String :=
  String.mk (pyReplace (pyReplace col.data "_normalized".data []) "_".data [])

/-- `normalize_phone_for_comparison(str(x)) if pd.notna(x) else ""`. -/
def normPhoneCell (x : Option String) : String :=
  match x with
  | some s => normalizePhoneForComparison s
  | none => ""

/-- `str(x).lower().strip() if pd.notna(x) else ""` (email and name keys). -/
def lowerStripCell (x : Option String) : String :=
  match x with
  | some s => String.mk (pyStrip (pyLower s.data))
  | none => ""

/-- Insert into a ≤-sorted list. -/
def insSorted (le : String → String → Bool) (a : String) : List String → List String
  | [] => [a]
  | b :: bs => if le a b then a :: b :: bs else b :: insSorted le a bs

/-- Insertion sort (pandas `groupby` sorts group keys). -/
def sortStr (le : String → String → Bool) : List String → List String
  | [] => []
  | a :: as => insSorted le a (sortStr le as)

/-- Lexicographic comparison of strings by code points (Python `<=`). -/
def strLe (a b : String) : Bool := decide (¬ b < a)

/-- First-occurrence deduplication of a string list (group keys). -/
def distinctKeys (seen : List String) : List String → List String
  | [] => []
  | k :: ks =>
    if seen.contains k then distinctKeys seen ks
    else k :: distinctKeys (k :: seen) ks

/-- The duplicate groups reported for one dedup column:
rows of `df[df.duplicated(subset=[col], keep=False) & (df[col] != "")]`,
grouped by the column value with group keys iterated in sorted order, kept
when the group has more than one row and a truthy key. -/
def groupsFor (f : Frame) (col : String) : List DupGroup :=
  let vals := (f.getCol col).map (fun v => v.getD "")
  let dupIdx := (withIdx 0 (f.getCol col)).filterMap fun p : Nat × Option String =>
    let v := p.2.getD ""
    if 2 ≤ (vals.filter (· = v)).length ∧ ¬ v = "" then some (p.1, v) else none
  let keys := sortStr strLe (distinctKeys [] (dupIdx.map (·.2)))
  keys.filterMap fun v =>
    let idxs := (dupIdx.filter (fun q => q.2 = v)).map (·.1)
    if 1 < idxs.length ∧ ¬ v = "" then
      some ⟨dedupKeyName col, v, idxs.length, idxs.map (· + 2)⟩
    else none

/-- `drop_duplicates(keep="first")` on a key function: keep a row iff its key
was not seen on an earlier row. -/
def keepFirstAux {α K : Type} [DecidableEq K] (key : α → K) (seen : List K) :
    List α → List α
  | [] => []
  | a :: as =>
    if seen.contains (key a) then keepFirstAux key seen as
    else a :: keepFirstAux key (key a :: seen) as

/-- `df.drop_duplicates(subset=keyCols, keep="first")` restricted to rows. -/
def keepFirstBy {α K : Type} [DecidableEq K] (key : α → K) (l : List α) : List α :=
  keepFirstAux key [] l

/-- The temporary normalized-key column names. -/
def tempCols : List String := ["_phone_normalized", "_email_normalized", "_name_normalized"]

/-- `deduplicate`: build the available normalized key columns in priority
order (phone, then email, then — only when neither exists — name), report
per-column duplicate groups, drop rows duplicated on the compound key of
all built columns keeping the first, then drop the temporary columns. -/
def deduplicate (f : Frame) (m : Mapping) : Frame × Nat × List DupGroup :=
  if f.isEmpty then (f, 0, [])
  else
    let pC := stdLookup m "phone"
    let eC := stdLookup m "email"
    let nC := stdLookup m "name"
    let f1 := match pC with
      | some c => f.setColBy "_phone_normalized"
          (fun r => some (normPhoneCell (cellAt f.cols c r)))
      | none => f
    let d1 : List String := match pC with
      | some _ => ["_phone_normalized"]
      | none => []
    let f2 := match eC with
      | some c => f1.setColBy "_email_normalized"
          (fun r => some (lowerStripCell (cellAt f1.cols c r)))
      | none => f1
    let d2 := d1 ++ (match eC with
      | some _ => ["_email_normalized"]
      | none => [])
    let f3 := match nC with
      | some c =>
        if d2.isEmpty then
          f2.setColBy "_name_normalized"
            (fun r => some (lowerStripCell (cellAt f2.cols c r)))
        else f2
      | none => f2
    let d3 := d2 ++ (match nC with
      | some _ => if d2.isEmpty then ["_name_normalized"] else []
      | none => [])
    if d3.isEmpty then (f3, 0, [])
    else
      let groups := (d3.map (groupsFor f3)).flatten
      let keyOf : List (Option String) → List (Option String) :=
        fun r => d3.map (fun c => cellAt f3.cols c r)
      let keptRows := keepFirstBy keyOf f3.rows
      let deduped : Frame := ⟨f3.cols, keptRows⟩
      let cleaned := ((deduped.dropCol "_phone_normalized").dropCol
        "_email_normalized").dropCol "_name_normalized"
      (cleaned, f3.rows.length - keptRows.length, groups.take 50)

/-! ## `to_contact_list` and the process summary -/

/-- A contact record: canonical field name to cleaned value or null. -/
abbrev Contact := List (String × Option String)

/-- `{std: orig for orig, std in column_mappings.items() if std}` as an
ordered association list: keys in first-assignment order, the last
original column assigned to a key wins. -/
def stdToOrig (m : Mapping) : List (String × String) :=
  let pairs := m.filterMap fun p : String × Option String =>
    match p.2 with
    | some s => if s = "" then none else some (s, p.1)
    | none => none
  (distinctKeys [] (pairs.map (·.1))).map fun k =>
    (k, (((pairs.filter (fun q => q.1 = k)).map (·.2)).getLast?).getD "")

/-- One row converted to a contact record. -/
def rowToContact (cols : List String) (sto : List (String × String))
    (r : List (Option String)) : Contact :=
  sto.map fun q => (q.1, cellAt cols q.2 r)

/-- Python truthiness of `contact.get(k)`: present, non-null and non-empty. -/
def truthyGet (c : Contact) (k : String) : Bool :=
  match List.find? (fun q : String × Option String => q.1 == k) c with
  | some (_, some s) => !(s == "")
  | _ => false

/-- `to_contact_list`: convert each row, appending the contact only when
its `name` or `phone` is truthy. -/
def toContactList (f : Frame) (m : Mapping) : List Contact :=
  let sto := stdToOrig m
  let go : List (List (Option String)) → List Contact := fun rs =>
    rs.foldr (fun r acc =>
      let c := rowToContact f.cols sto r
      if truthyGet c "name" || truthyGet c "phone" then c :: acc else acc) []
  go f.rows

/-! `clean_data` and the `/process` endpoint's `failed` count. -/

/-- `rename_map = {orig: std for orig, std in column_mappings.items() if std}`
as ordered pairs (truthy targets only). -/
def renameMap (m : Mapping) : List (String × String) :=
  m.filterMap fun p : String × Option String =>
    match p.2 with
    | some s => if s = "" then none else some (p.1, s)
    | none => none

/-- Dict lookup into `rename_map`: the last assignment to a key wins. -/
def renameLookup (rm : List (String × String)) (c : String) : Option String :=
  ((rm.filter (fun p => p.1 = c)).map (·.2)).getLast?

/-- `df.rename(columns=rename_map)`: relabel each column through the map,
keeping unlisted labels. -/
def Frame.renameCols (f : Frame) (m : Mapping) : Frame :=
  ⟨f.cols.map (fun c => (renameLookup (renameMap m) c).getD c), f.rows⟩

/-- `df[c] = df[c].apply(g)` guarded by `if c in df.columns` (no-op when the
column is absent). -/
def Frame.mapCol (f : Frame) (c : String) (g : Option String → Option String) :
    Frame :=
  match findIdx c f.cols with
  | some i => ⟨f.cols, f.rows.map (fun r => r.set i (g (r.getD i none)))⟩
  | none => f

/-- The non-Malaysian fallback of `_clean_phone`:
`re.sub(r"[^\d\+]", "", phone_str)`, kept only when at least 8 characters
remain. -/
def cleanPhoneFallback (phoneStr : String) : Option String :=
  let cleaned := phoneStr.data.filter (fun c => c.isDigit || c == '+')
  if 8 ≤ cleaned.length then some (String.mk cleaned) else none

/-- `_clean_phone`: strip, try `format_malaysian_phone` (a truthy result is
returned), else fall back to digit-and-plus stripping. -/
def cleanPhoneCell (x : Option String) : Option String :=
  match x with
  | none => none
  | some s =>
    let phoneStr := String.mk (pyStrip s.data)
    match formatMalaysianPhone phoneStr with
    | some fm => if fm = "" then cleanPhoneFallback phoneStr else some fm
    | none => cleanPhoneFallback phoneStr

/-- `_clean_email`: strip then lower-case, keep only a full e-mail match. -/
def cleanEmailCell (x : Option String) : Option String :=
  match x with
  | none => none
  | some s =>
    let e := pyLower (pyStrip s.data)
    if emailFull e then some (String.mk e) else none

/-- `lambda x: str(x).strip() if pd.notna(x) else None` (final pass of
`clean_data`). -/
def stripCell (x : Option String) : Option String :=
  match x with
  | none => none
  | some s => some (String.mk (pyStrip s.data))

/-- `clean_data`: rename to canonical names, clean the phone (when
requested), email and name columns, then strip every string column (in
this all-string cell model every column is an object column). -/
def cleanData (f : Frame) (m : Mapping) (cleanPhones : Bool) : Frame :=
  let f1 := f.renameCols m
  let f2 := if cleanPhones then f1.mapCol "phone" cleanPhoneCell else f1
  let f3 := f2.mapCol "email" cleanEmailCell
  let f4 := f3.mapCol "name" cleanName
  ⟨f4.cols, f4.rows.map (fun r => r.map stripCell)⟩

/-- The frame the `/process` endpoint hands to `to_contact_list`: the
cleaned frame, deduplicated when requested. -/
def convertedFrame (f : Frame) (m : Mapping)
    (cleanPhones removeDuplicates : Bool) : Frame :=
  if removeDuplicates then (deduplicate (cleanData f m cleanPhones) m).1
  else cleanData f m cleanPhones

/-- The `failed` count reported by the `/process` endpoint:
`len(df) - len(contacts)` where `df` is the originally-read frame and the
contacts come from the cleaned and (when requested) deduplicated frame. -/
def processFailedCount (f : Frame) (m : Mapping)
    (cleanPhones removeDuplicates : Bool) : Nat :=
  f.rows.length
    - (toContactList (convertedFrame f m cleanPhones removeDuplicates) m).length

/-! ## Specification-side definitions and concrete inputs for the claims -/

/-- Modelled from the spec claim about `isMalaysian` (refinement
comparison): after stripping a leading `+`, the country code `60` or a
leading `0` from the cleaned digits, the remainder starts with a known
mobile or landline prefix. -/
def isMalaysianClaim (raw : String) : Bool :=
  let digits := dropPlus (cleanPhoneNumber raw).data
  let rem :=
    if listStarts ['6', '0'] digits then digits.drop 2
    else if listStarts ['0'] digits then digits.drop 1
    else digits
  mobilePrefixes.any (fun p => listStarts p.data rem)
    || landlinePrefixes.any (fun p => listStarts p.data rem)

/-- A raw string is a valid Malaysian mobile number according to the code
itself: `validate_malaysian_phone` accepts it and its stripped core starts
with a mobile prefix. -/
def isValidMobile (s : String) : Bool :=
  (validateMalaysianPhone s).1
    && mobilePrefixes.any (fun p => listStarts p.data (strippedCore s))

/-- The compound dedup key actually used by `deduplicate` when both a phone
and an email column are mapped: (normalized phone, normalized email). -/
def phoneEmailKey (cols : List String) (pc ec : String) (r : List (Option String)) :
    List (Option String) :=
  [some (normPhoneCell (cellAt cols pc r)), some (lowerStripCell (cellAt cols ec r))]

/-- Two rows with the same phone but different emails. -/
def exFrameDedup : Frame :=
  ⟨["phone", "email"],
   [[some "012-345 6789", some "a@x.com"], [some "+6012-345 6789", some "b@x.com"]]⟩

/-- Mapping with both phone and email confirmed. -/
def exMapPE : Mapping := [("phone", some "phone"), ("email", some "email")]

/-- A frame whose second column uses one of the reserved temporary names. -/
def exFrameTemp : Frame :=
  ⟨["phone", "_email_normalized"], [[some "0123456789", some "z"]]⟩

/-- Mapping with only phone confirmed. -/
def exMapPhone : Mapping := [("phone", some "phone")]

/-- One row whose name is the non-null empty string. -/
def exFrameContacts : Frame := ⟨["name"], [[some ""]]⟩

/-- Mapping with only name confirmed. -/
def exMapName : Mapping := [("name", some "name")]

/-- A frame with one missing name and one duplicated phone. -/
def exFrameQuality : Frame :=
  ⟨["name", "phone"], [[none, some "0123456789"], [some "Ali", some "0123456789"]]⟩

/-- Mapping with name and phone confirmed. -/
def exMapNP : Mapping := [("name", some "name"), ("phone", some "phone")]

/-- Five e-mail-shaped sample cells under an unrecognized header. -/
def exEmailCells : List (Option String) :=
  [some "a@b.com", some "c@d.org", some "e@f.net", some "g@h.io", some "i@j.co"]

/-! ## C2: the name-cleaner example -/

/-- C2, counterexample: on `"dato' AHMAD bin abdullah"` the name cleaner does
NOT return `"Dato' AHMAD Bin Abdullah"` — the honorific branch of
`_clean_name` appends the word verbatim, so the lower-case `"dato'"` is
kept as-is. -/
theorem c2_counterexample :
    cleanName (some "dato' AHMAD bin abdullah") ≠ some "Dato' AHMAD Bin Abdullah" := by
  decide

/-- C2, amended: the name cleaner on `"dato' AHMAD bin abdullah"` returns
exactly `"dato' AHMAD Bin Abdullah"`: the honorific is preserved verbatim
(hence stays lower-case), the all-upper-case token is preserved, and the
remaining words are title-cased. -/
theorem c2_amended :
    cleanName (some "dato' AHMAD bin abdullah") = some "dato' AHMAD Bin Abdullah" := by
  decide

/-! ## C5: validator length failures -/

/-- C5, counterexample: `validate("123")` does not return the pair
`(false, "too short")` — the code's reason string is the full sentence
`"Phone number is too short"`, and similarly for the too-long case. -/
theorem c5_counterexample :
    validateMalaysianPhone "123" ≠ (false, "too short")
      ∧ validateMalaysianPhone "+60123456789012" ≠ (false, "too long") := by
  decide

/-- C5, amended: for every non-empty input, when fewer than 8 digits remain
after stripping the country code and leading zero the validator returns
`(false, "Phone number is too short")`, and when more than 10 remain it
returns `(false, "Phone number is too long")`. -/
theorem c5_amended (s : String) (hs : ¬ s = "") :
    ((strippedCore s).length < 8 →
      validateMalaysianPhone s = (false, "Phone number is too short")) ∧
    (10 < (strippedCore s).length →
      validateMalaysianPhone s = (false, "Phone number is too long")) := by
  constructor
  · intro h
    simp [validateMalaysianPhone, hs, h]
  · intro h
    have h8 : ¬ (strippedCore s).length < 8 := by omega
    simp [validateMalaysianPhone, hs, h8, h]

/-- C5, witness: the amended theorem applied at the spec's own examples. -/
theorem c5_witness :
    validateMalaysianPhone "123" = (false, "Phone number is too short")
      ∧ validateMalaysianPhone "+60123456789012" = (false, "Phone number is too long") :=
  ⟨(c5_amended "123" (by decide)).1 (by decide),
   (c5_amended "+60123456789012" (by decide)).2 (by decide)⟩

/-! ## C3: `isMalaysian` characterization -/

/-- C3, counterexample: the claimed iff fails in both directions —
`"312345678"` starts with a landline prefix after no stripping (claim
says true) yet the code returns false, while `"6021234567"` strips to a
remainder with no known prefix (claim says false) yet the code returns
true because anything starting with `60` is accepted outright. -/
theorem c3_counterexample :
    (isMalaysianClaim "312345678" = true ∧ isMalaysianNumber "312345678" = false)
      ∧ (isMalaysianClaim "6021234567" = false ∧ isMalaysianNumber "6021234567" = true) := by
  decide

/-- C3, amended: `isMalaysian(raw)` is true iff the cleaned digits (after
dropping leading `+`s) start with the country code `60` (with no further
check), or start with `0` followed by a known mobile or landline prefix,
or start directly with a known mobile prefix; landline numbers without a
leading `0` are NOT recognized. -/
theorem c3_amended (s : String) :
    isMalaysianNumber s = true ↔
      (listStarts ['6', '0'] (dropPlus (cleanPhoneNumber s).data) = true
        ∨ (listStarts ['0'] (dropPlus (cleanPhoneNumber s).data) = true
            ∧ ((∃ p ∈ mobilePrefixes,
                  listStarts p.data ((dropPlus (cleanPhoneNumber s).data).drop 1) = true)
              ∨ (∃ p ∈ landlinePrefixes,
                  listStarts p.data ((dropPlus (cleanPhoneNumber s).data).drop 1) = true)))
        ∨ ∃ p ∈ mobilePrefixes, listStarts p.data (dropPlus (cleanPhoneNumber s).data) = true) := by
  constructor
  · intro h
    simp only [isMalaysianNumber] at h
    split at h
    · next h1 => exact Or.inl h1
    · next h1 =>
      split at h
      · next h2 =>
        rw [Bool.and_eq_true, Bool.or_eq_true] at h2
        refine Or.inr (Or.inl ⟨h2.1, ?_⟩)
        rcases h2.2 with hm | hl
        · exact Or.inl (by simpa only [List.any_eq_true] using hm)
        · exact Or.inr (by simpa only [List.any_eq_true] using hl)
      · next h2 =>
        exact Or.inr (Or.inr (by simpa only [List.any_eq_true] using h))
  · intro h
    simp only [isMalaysianNumber]
    by_cases h1 : listStarts ['6', '0'] (dropPlus (cleanPhoneNumber s).data) = true
    · rw [if_pos h1]
    · rcases h with h60 | ⟨h0, hpre⟩ | hmob
      · exact absurd h60 h1
      · have hb2 : (listStarts ['0'] (dropPlus (cleanPhoneNumber s).data)
            && ((mobilePrefixes.any fun p =>
                  listStarts p.data ((dropPlus (cleanPhoneNumber s).data).drop 1))
              || (landlinePrefixes.any fun p =>
                  listStarts p.data ((dropPlus (cleanPhoneNumber s).data).drop 1)))) = true := by
          rw [Bool.and_eq_true, Bool.or_eq_true]
          refine ⟨h0, ?_⟩
          rcases hpre with hm | hl
          · exact Or.inl (by simpa only [List.any_eq_true] using hm)
          · exact Or.inr (by simpa only [List.any_eq_true] using hl)
        rw [if_neg h1, if_pos hb2]
      · have hb3 : (mobilePrefixes.any fun p =>
            listStarts p.data (dropPlus (cleanPhoneNumber s).data)) = true := by
          simpa only [List.any_eq_true] using hmob
        by_cases h2 : (listStarts ['0'] (dropPlus (cleanPhoneNumber s).data)
            && ((mobilePrefixes.any fun p =>
                  listStarts p.data ((dropPlus (cleanPhoneNumber s).data).drop 1))
              || (landlinePrefixes.any fun p =>
                  listStarts p.data ((dropPlus (cleanPhoneNumber s).data).drop 1)))) = true
        · rw [if_neg h1, if_pos h2]
        · rw [if_neg h1, if_neg h2]
          exact hb3

/-! ## C7: content-based column classification -/

/-- C7: for a column whose header matches no keyword, content detection over
the up-to-5 non-null samples classifies email (0.9) at the ≥ 60 % email
threshold, else phone (0.85), else name (0.7), else leaves the column
unmapped with confidence 0. -/
theorem c7_content_detection (col : String) (cells : List (Option String))
    (samples : List String) (hsam : samples = (cells.filterMap id).take 5)
    (hhdr : headerDetect (String.mk (pyStrip (pyLower col.data))) columnMappings = none)
    (hs : ¬ samples = []) :
    (10 * (samples.filter (fun s => emailPre s.data)).length ≥ 6 * samples.length →
      (detectColumn col cells).mappedTo = some "email"
        ∧ (detectColumn col cells).confidence = (9 : ℚ) / 10) ∧
    (¬ 10 * (samples.filter (fun s => emailPre s.data)).length ≥ 6 * samples.length →
      10 * (samples.filter phoneShaped).length ≥ 6 * samples.length →
      (detectColumn col cells).mappedTo = some "phone"
        ∧ (detectColumn col cells).confidence = (85 : ℚ) / 100) ∧
    (¬ 10 * (samples.filter (fun s => emailPre s.data)).length ≥ 6 * samples.length →
      ¬ 10 * (samples.filter phoneShaped).length ≥ 6 * samples.length →
      10 * (samples.filter nameLike).length ≥ 6 * samples.length →
      (detectColumn col cells).mappedTo = some "name"
        ∧ (detectColumn col cells).confidence = (7 : ℚ) / 10) ∧
    (¬ 10 * (samples.filter (fun s => emailPre s.data)).length ≥ 6 * samples.length →
      ¬ 10 * (samples.filter phoneShaped).length ≥ 6 * samples.length →
      ¬ 10 * (samples.filter nameLike).length ≥ 6 * samples.length →
      (detectColumn col cells).mappedTo = none
        ∧ (detectColumn col cells).confidence = 0) := by
  subst hsam
  have he : ((cells.filterMap id).take 5).isEmpty = false := by
    cases h : (cells.filterMap id).take 5 with
    | nil => exact absurd h hs
    | cons a l => simp [List.isEmpty]
  have hrun : detectColumn col cells
      = detectByContent ⟨col, none, 0, (cells.filterMap id).take 5⟩
          ((cells.filterMap id).take 5) := by
    simp only [detectColumn, hhdr, he, Bool.false_eq_true, if_false]
  rw [hrun]
  simp only [detectByContent, he, Bool.false_eq_true, if_false]
  refine ⟨fun h1 => ?_, fun h1 h2 => ?_, fun h1 h2 h3 => ?_, fun h1 h2 h3 => ?_⟩
  · rw [if_pos h1]
    exact ⟨rfl, rfl⟩
  · rw [if_neg h1, if_pos h2]
    exact ⟨rfl, rfl⟩
  · rw [if_neg h1, if_neg h2, if_pos h3]
    exact ⟨rfl, rfl⟩
  · rw [if_neg h1, if_neg h2, if_neg h3]
    exact ⟨rfl, rfl⟩

/-- C7, witness: five email-shaped values under an unrecognized header map
to `email` with confidence 0.9. -/
theorem c7_witness :
    (detectColumn "xyz123" exEmailCells).mappedTo = some "email"
      ∧ (detectColumn "xyz123" exEmailCells).confidence = (9 : ℚ) / 10 :=
  (c7_content_detection "xyz123" exEmailCells
      ((exEmailCells.filterMap id).take 5) rfl (by decide) (by decide)).1 (by decide)

/-! ## C9: detection result invariants -/

/-- The name-based stage only ever assigns confidence 0.95 or 0.8. -/
theorem headerDetect_conf (c : String) (L : List (String × List String))
    (fld : String) (q : ℚ) (h : headerDetect c L = some (fld, q)) :
    q = (95 : ℚ) / 100 ∨ q = (8 : ℚ) / 10 := by
  induction L with
  | nil => simp [headerDetect] at h
  | cons hd tl ih =>
    obtain ⟨f0, kws⟩ := hd
    simp only [headerDetect] at h
    cases hk : firstKw c kws with
    | some k =>
      rw [hk] at h
      have hq : q = if c = k then (95 : ℚ) / 100 else (8 : ℚ) / 10 :=
        (Prod.mk.injEq _ _ _ _ ▸ Option.some.inj h).2.symm
      by_cases hck : c = k
      · exact Or.inl (by rw [hq, if_pos hck])
      · exact Or.inr (by rw [hq, if_neg hck])
    | none =>
      rw [hk] at h
      exact ih h

/-- A single detection result keeps the original column name, maps nothing
exactly when its confidence is 0, and otherwise has one of the five fixed
confidences. -/
theorem detectColumn_spec (c : String) (cells : List (Option String)) :
    (detectColumn c cells).originalName = c ∧
    ((detectColumn c cells).mappedTo = none ↔ (detectColumn c cells).confidence = 0) ∧
    ((detectColumn c cells).mappedTo ≠ none →
      (detectColumn c cells).confidence = (7 : ℚ) / 10
        ∨ (detectColumn c cells).confidence = (8 : ℚ) / 10
        ∨ (detectColumn c cells).confidence = (85 : ℚ) / 100
        ∨ (detectColumn c cells).confidence = (9 : ℚ) / 10
        ∨ (detectColumn c cells).confidence = (95 : ℚ) / 100) := by
  cases hh : headerDetect (String.mk (pyStrip (pyLower c.data))) columnMappings with
  | some fq =>
    obtain ⟨fld, q⟩ := fq
    have hrun : detectColumn c cells = ⟨c, some fld, q, (cells.filterMap id).take 5⟩ := by
      simp only [detectColumn, hh]
    rcases headerDetect_conf _ _ _ _ hh with hq | hq <;> subst hq <;> rw [hrun] <;>
      exact ⟨rfl, by constructor <;> intro h <;> simp at h,
        fun _ => by norm_num⟩
  | none =>
    by_cases hse : ((cells.filterMap id).take 5).isEmpty = true
    · have hrun : detectColumn c cells = ⟨c, none, 0, (cells.filterMap id).take 5⟩ := by
        simp only [detectColumn, hh, hse, if_true]
      rw [hrun]
      exact ⟨rfl, by simp, fun h => absurd rfl h⟩
    · have hb : ((cells.filterMap id).take 5).isEmpty = false :=
        Bool.eq_false_iff.mpr hse
      have hrun : detectColumn c cells
          = detectByContent ⟨c, none, 0, (cells.filterMap id).take 5⟩
              ((cells.filterMap id).take 5) := by
        simp only [detectColumn, hh, hb, Bool.false_eq_true, if_false]
      rw [hrun]
      simp only [detectByContent, hb, Bool.false_eq_true, if_false]
      split_ifs with h1 h2 h3
      · exact ⟨rfl, by constructor <;> intro h <;> simp at h,
          fun _ => by norm_num⟩
      · exact ⟨rfl, by constructor <;> intro h <;> simp at h,
          fun _ => by norm_num⟩
      · exact ⟨rfl, by constructor <;> intro h <;> simp at h,
          fun _ => by norm_num⟩
      · exact ⟨rfl, by simp, fun h => absurd rfl h⟩

/-- Looking up each index of a list returns the list itself. -/
theorem range_getD_map {α : Type} (l : List α) (d : α) :
    (List.range l.length).map (fun i => l.getD i d) = l := by
  induction l with
  | nil => simp
  | cons a as ih =>
    rw [List.length_cons, List.range_succ_eq_map, List.map_cons, List.map_map]
    have hcomp : ((fun i => (a :: as).getD i d) ∘ Nat.succ) = fun i => as.getD i d := by
      funext i
      rfl
    rw [hcomp, ih]
    rfl

/-- C9: column detection returns exactly one result per column in column
order; `mapped_to` is null iff the confidence is 0; a mapped column has one
of the confidences 0.7, 0.8, 0.85, 0.9, 0.95, all within [0, 1]. -/
theorem c9_detection_invariants (f : Frame) :
    ((detectColumns f).map ColMapping.originalName = f.cols) ∧
    ∀ r ∈ detectColumns f,
      ((r.mappedTo = none ↔ r.confidence = 0) ∧
       (r.mappedTo ≠ none →
         (r.confidence = (7 : ℚ) / 10 ∨ r.confidence = (8 : ℚ) / 10
            ∨ r.confidence = (85 : ℚ) / 100 ∨ r.confidence = (9 : ℚ) / 10
            ∨ r.confidence = (95 : ℚ) / 100)
          ∧ 0 ≤ r.confidence ∧ r.confidence ≤ 1)) := by
  constructor
  · unfold detectColumns
    rw [List.map_map]
    have hco : (ColMapping.originalName ∘ fun i =>
        detectColumn (f.cols.getD i "") (f.rows.map (fun r => r.getD i none)))
        = fun i => f.cols.getD i "" :=
      funext fun i => (detectColumn_spec _ _).1
    rw [hco, range_getD_map]
  · intro r hr
    unfold detectColumns at hr
    rcases List.mem_map.mp hr with ⟨i, _, rfl⟩
    obtain ⟨-, h2, h3⟩ := detectColumn_spec (f.cols.getD i "")
      (f.rows.map (fun r => r.getD i none))
    refine ⟨h2, fun hne => ⟨h3 hne, ?_, ?_⟩⟩
    · rcases h3 hne with h | h | h | h | h <;> rw [h] <;> norm_num
    · rcases h3 hne with h | h | h | h | h <;> rw [h] <;> norm_num

/-- C9, witness: the invariants instantiated at a concrete frame and its
first detection result. -/
theorem c9_witness :
    ((((detectColumns exFrameQuality).getD 0 ⟨"", none, 0, []⟩).mappedTo = none ↔
        ((detectColumns exFrameQuality).getD 0 ⟨"", none, 0, []⟩).confidence = 0) ∧
     (((detectColumns exFrameQuality).getD 0 ⟨"", none, 0, []⟩).mappedTo ≠ none →
       (((detectColumns exFrameQuality).getD 0 ⟨"", none, 0, []⟩).confidence = (7 : ℚ) / 10
          ∨ ((detectColumns exFrameQuality).getD 0 ⟨"", none, 0, []⟩).confidence = (8 : ℚ) / 10
          ∨ ((detectColumns exFrameQuality).getD 0 ⟨"", none, 0, []⟩).confidence = (85 : ℚ) / 100
          ∨ ((detectColumns exFrameQuality).getD 0 ⟨"", none, 0, []⟩).confidence = (9 : ℚ) / 10
          ∨ ((detectColumns exFrameQuality).getD 0 ⟨"", none, 0, []⟩).confidence = (95 : ℚ) / 100)
        ∧ 0 ≤ ((detectColumns exFrameQuality).getD 0 ⟨"", none, 0, []⟩).confidence
        ∧ ((detectColumns exFrameQuality).getD 0 ⟨"", none, 0, []⟩).confidence ≤ 1)) :=
  (c9_detection_invariants exFrameQuality).2
    ((detectColumns exFrameQuality).getD 0 ⟨"", none, 0, []⟩)
    (by
      have h0 : 0 < (detectColumns exFrameQuality).length := by decide
      rw [List.getD_eq_getElem _ _ h0]
      exact List.getElem_mem h0)

/-! ## C6: reported row numbers are `index + 2` -/

/-- Indices produced by `withIdx i0 l` lie below `i0 + l.length`. -/
theorem mem_withIdx_lt {i0 : Nat} {l : List (Option String)} {p : Nat × Option String}
    (h : p ∈ withIdx i0 l) : p.1 < i0 + l.length := by
  induction l generalizing i0 with
  | nil => simp [withIdx] at h
  | cons a as ih =>
    simp only [withIdx, List.mem_cons] at h
    rcases h with h | h
    · subst h
      simp only [List.length_cons]
      omega
    · have := ih h
      simp only [List.length_cons]
      omega

/-- A column read has one cell per row. -/
theorem getCol_length (f : Frame) (c : String) : (f.getCol c).length = f.rows.length := by
  simp [Frame.getCol]

/-- `setColBy` never changes the number of rows. -/
theorem setColBy_rows_length (f : Frame) (c : String)
    (g : List (Option String) → Option String) :
    (f.setColBy c g).rows.length = f.rows.length := by
  unfold Frame.setColBy
  cases findIdx c f.cols <;> simp

/-- Every row number in a reported duplicate group is an in-range row index
of the grouped frame plus 2. -/
theorem groupsFor_rowNumbers (f3 : Frame) (col : String) (g : DupGroup)
    (hg : g ∈ groupsFor f3 col) (r : Nat) (hr : r ∈ g.rowNumbers) :
    ∃ i, i < f3.rows.length ∧ r = i + 2 := by
  simp only [groupsFor] at hg
  rcases List.mem_filterMap.mp hg with ⟨v, _, hsome⟩
  split at hsome
  · rcases Option.some.inj hsome with rfl
    simp only [List.mem_map] at hr
    rcases hr with ⟨i, ⟨q, hq, rfl⟩, rfl⟩
    rcases List.mem_filter.mp hq with ⟨hq', -⟩
    rcases List.mem_filterMap.mp hq' with ⟨p, hp, hps⟩
    have hlt := mem_withIdx_lt hp
    rw [Nat.zero_add, getCol_length] at hlt
    refine ⟨q.1, ?_, rfl⟩
    split at hps
    · rcases Option.some.inj hps with rfl
      exact hlt
    · cases hps
  · cases hsome

/-- Row numbers of the groups of one dedup column list, bounded by the
frame's row count. -/
theorem dedupGroups_bound (f3 : Frame) (cols3 : List String) (g : DupGroup)
    (hg : g ∈ ((cols3.map (groupsFor f3)).flatten).take 50)
    (r : Nat) (hr : r ∈ g.rowNumbers) :
    ∃ i, i < f3.rows.length ∧ r = i + 2 := by
  have hg' := List.mem_of_mem_take hg
  rcases List.mem_flatten.mp hg' with ⟨gl, hgl, hmem⟩
  rcases List.mem_map.mp hgl with ⟨col, -, rfl⟩
  exact groupsFor_rowNumbers f3 col g hmem r hr

/-- C6: every row number reported in a data-quality issue and in a duplicate
group equals the row's zero-based dataset index plus 2. -/
theorem c6_row_number_offsets (f : Frame) (m : Mapping) :
    (∀ q ∈ (validateData f m).issues, ∃ i, i < f.rows.length ∧ q.rowNumber = i + 2) ∧
    (∀ g ∈ (deduplicate f m).2.2, ∀ r ∈ g.rowNumbers,
      ∃ i, i < f.rows.length ∧ r = i + 2) := by
  constructor
  · intro q hq
    simp only [validateData] at hq
    replace hq := List.mem_of_mem_take hq
    rw [List.append_assoc, List.mem_append, List.mem_append] at hq
    rcases hq with hq | hq | hq
    · cases hn : stdLookup m "name" with
      | none =>
        rw [hn] at hq
        cases hq
      | some nc =>
        rw [hn] at hq
        rcases List.mem_filterMap.mp hq with ⟨p, hp, hsome⟩
        have hlt := mem_withIdx_lt hp
        rw [Nat.zero_add, getCol_length] at hlt
        split at hsome
        · rcases Option.some.inj hsome with rfl
          exact ⟨p.1, hlt, rfl⟩
        · cases hsome
    · cases hn : stdLookup m "phone" with
      | none =>
        rw [hn] at hq
        cases hq
      | some pc =>
        rw [hn] at hq
        rcases List.mem_filterMap.mp hq with ⟨p, hp, hsome⟩
        have hlt := mem_withIdx_lt hp
        rw [Nat.zero_add, getCol_length] at hlt
        obtain ⟨i, v⟩ := p
        cases v with
        | none => cases hsome
        | some s =>
          simp only at hsome
          split at hsome
          · cases hsome
          · rcases Option.some.inj hsome with rfl
            exact ⟨i, hlt, rfl⟩
    · cases hn : stdLookup m "email" with
      | none =>
        rw [hn] at hq
        cases hq
      | some ec =>
        rw [hn] at hq
        rcases List.mem_filterMap.mp hq with ⟨p, hp, hsome⟩
        have hlt := mem_withIdx_lt hp
        rw [Nat.zero_add, getCol_length] at hlt
        obtain ⟨i, v⟩ := p
        cases v with
        | none => cases hsome
        | some s =>
          simp only at hsome
          split at hsome
          · cases hsome
          · rcases Option.some.inj hsome with rfl
            exact ⟨i, hlt, rfl⟩
  · intro g hg r hr
    by_cases hfe : f.isEmpty = true
    · simp only [deduplicate, hfe, if_true] at hg
      cases hg
    · have hb : f.isEmpty = false := Bool.eq_false_iff.mpr hfe
      rcases hp : stdLookup m "phone" with _ | pc <;>
        rcases he : stdLookup m "email" with _ | ec <;>
          rcases hn' : stdLookup m "name" with _ | nc <;>
            simp only [deduplicate, hb, Bool.false_eq_true, if_false, hp, he, hn',
              List.nil_append, List.cons_append, List.append_nil, List.isEmpty_nil,
              List.isEmpty_cons, eq_self_iff_true, if_true, if_false] at hg <;>
              (first
                | cases hg
                | (rcases dedupGroups_bound _ _ _ hg r hr with ⟨i, hi, hr2⟩
                   refine ⟨i, ?_, hr2⟩
                   simpa [setColBy_rows_length] using hi))

/-- C6, witness: the bound applied to a concrete missing-name issue and a
concrete duplicate group. -/
theorem c6_witness :
    ((⟨2, "name", "missing", "Missing contact name",
        "Add contact name or remove row"⟩ : QIssue)
      ∈ (validateData exFrameQuality exMapNP).issues) ∧
    (∃ i, i < exFrameQuality.rows.length ∧
      (⟨2, "name", "missing", "Missing contact name",
        "Add contact name or remove row"⟩ : QIssue).rowNumber = i + 2) ∧
    ((3 : Nat) ∈ (⟨"phone", "60123456789", 2, [2, 3]⟩ : DupGroup).rowNumbers) ∧
    (∃ i, i < exFrameQuality.rows.length ∧ 3 = i + 2) :=
  ⟨by decide,
   (c6_row_number_offsets exFrameQuality exMapNP).1 _ (by decide),
   by decide,
   (c6_row_number_offsets exFrameQuality exMapNP).2
     (⟨"phone", "60123456789", 2, [2, 3]⟩ : DupGroup) (by decide) 3 (by decide)⟩

/-! ## C8: contact conversion retention -/

/-- The conversion loop is a filter over the converted rows. -/
theorem foldr_keep_eq_filter (cols : List String) (sto : List (String × String))
    (rs : List (List (Option String))) :
    (rs.foldr (fun r acc =>
        let c := rowToContact cols sto r
        if truthyGet c "name" || truthyGet c "phone" then c :: acc else acc) [])
      = (rs.map (rowToContact cols sto)).filter
          (fun c => truthyGet c "name" || truthyGet c "phone") := by
  induction rs with
  | nil => rfl
  | cons r rs ih =>
    simp only [List.foldr_cons, List.map_cons, List.filter_cons, ih]

/-- Splitting a list by a boolean predicate preserves its length. -/
theorem filter_length_split {α : Type} (p : α → Bool) (l : List α) :
    (l.filter p).length + (l.filter (fun a => !p a)).length = l.length := by
  induction l with
  | nil => rfl
  | cons a l ih =>
    by_cases h : p a = true <;> simp [List.filter_cons, h, ← ih] <;> omega

/-- Renaming touches only the column labels, never the rows. -/
theorem renameCols_rows (f : Frame) (m : Mapping) : (f.renameCols m).rows = f.rows :=
  rfl

/-- A guarded column transform never changes the number of rows. -/
theorem mapCol_rows_length (f : Frame) (c : String)
    (g : Option String → Option String) :
    (f.mapCol c g).rows.length = f.rows.length := by
  unfold Frame.mapCol
  cases findIdx c f.cols <;> simp

/-- `clean_data` never changes the number of rows. -/
theorem cleanData_rows_length (f : Frame) (m : Mapping) (cp : Bool) :
    (cleanData f m cp).rows.length = f.rows.length := by
  simp only [cleanData]
  cases cp <;>
    simp [mapCol_rows_length, renameCols_rows, Frame.renameCols]

/-- Dropping a column never changes the number of rows. -/
theorem dropCol_rows_length (f : Frame) (c : String) :
    (f.dropCol c).rows.length = f.rows.length := by
  unfold Frame.dropCol
  cases findIdx c f.cols <;> simp

/-- `drop_duplicates` keeps at most every row. -/
theorem keepFirstAux_length_le {α K : Type} [DecidableEq K] (key : α → K)
    (seen : List K) (l : List α) :
    (keepFirstAux key seen l).length ≤ l.length := by
  induction l generalizing seen with
  | nil => exact Nat.le_refl 0
  | cons a as ih =>
    simp only [keepFirstAux, List.length_cons]
    split
    · exact Nat.le_succ_of_le (ih seen)
    · simpa using Nat.succ_le_succ (ih _)

/-- After dropping duplicates and the temporary columns, the surviving row
count plus the removed-row count restores the grouped frame's row count. -/
theorem cleanup_plus_count (cols3 : List String)
    (rows3 : List (List (Option String)))
    (key : List (Option String) → List (Option String)) (n : Nat)
    (hn : rows3.length = n) :
    ((((⟨cols3, keepFirstBy key rows3⟩ : Frame).dropCol
        "_phone_normalized").dropCol "_email_normalized").dropCol
        "_name_normalized").rows.length
      + (rows3.length - (keepFirstBy key rows3).length) = n := by
  have h1 : ((((⟨cols3, keepFirstBy key rows3⟩ : Frame).dropCol
      "_phone_normalized").dropCol "_email_normalized").dropCol
      "_name_normalized").rows.length = (keepFirstBy key rows3).length := by
    simp [dropCol_rows_length]
  have h2 : (keepFirstBy key rows3).length ≤ rows3.length :=
    keepFirstAux_length_le key [] rows3
  omega

/-- The deduplicated frame's row count plus the reported removed count
equals the input frame's row count. -/
theorem deduplicate_length (f : Frame) (m : Mapping) :
    (deduplicate f m).1.rows.length + (deduplicate f m).2.1 = f.rows.length := by
  by_cases hfe : f.isEmpty = true
  · simp [deduplicate, hfe]
  · have hb : f.isEmpty = false := Bool.eq_false_iff.mpr hfe
    rcases hp : stdLookup m "phone" with _ | pc <;>
      rcases he : stdLookup m "email" with _ | ec <;>
        rcases hn : stdLookup m "name" with _ | nc <;>
          simp only [deduplicate, hb, Bool.false_eq_true, if_false, hp, he, hn,
            List.nil_append, List.cons_append, List.append_nil, List.isEmpty_nil,
            List.isEmpty_cons, eq_self_iff_true, if_true, if_false] <;>
            first
              | rfl
              | exact cleanup_plus_count _ _ _ _ (by simp [setColBy_rows_length])

/-- C8, counterexample: a row whose `name` cell is the non-null empty
string is dropped by the conversion (Python truthiness), although the
claim says every row with a non-null name is retained; the failed total
counts it. -/
theorem c8_counterexample :
    toContactList exFrameContacts exMapName = []
      ∧ (exFrameContacts.rows.getD 0 []).getD 0 none ≠ none
      ∧ processFailedCount exFrameContacts exMapName true true = 1 := by
  decide

/-- C8, amended: conversion retains exactly the rows whose contact record
has a truthy (non-null AND non-empty) `name` or `phone` value, and the
reported failed total `len(df) - len(contacts)`, computed against the
original pre-clean frame, equals the deduplication-removed row count (zero
when deduplication is off) plus the number of rows of the converted frame
dropped for lacking a truthy name and phone. -/
theorem c8_amended (f : Frame) (m : Mapping) (cp rd : Bool) :
    toContactList f m
      = (f.rows.map (rowToContact f.cols (stdToOrig m))).filter
          (fun c => truthyGet c "name" || truthyGet c "phone") ∧
    processFailedCount f m cp rd
      = (if rd then (deduplicate (cleanData f m cp) m).2.1 else 0)
        + (((convertedFrame f m cp rd).rows.map
            (rowToContact (convertedFrame f m cp rd).cols (stdToOrig m))).filter
              (fun c => !(truthyGet c "name" || truthyGet c "phone"))).length := by
  have hret : ∀ g : Frame, toContactList g m
      = (g.rows.map (rowToContact g.cols (stdToOrig m))).filter
          (fun c => truthyGet c "name" || truthyGet c "phone") := by
    intro g
    unfold toContactList
    exact foldr_keep_eq_filter g.cols (stdToOrig m) g.rows
  refine ⟨hret f, ?_⟩
  cases rd with
  | false =>
    have hC : convertedFrame f m cp false = cleanData f m cp := by
      simp [convertedFrame]
    have hsplit := filter_length_split
      (fun c => truthyGet c "name" || truthyGet c "phone")
      ((cleanData f m cp).rows.map (rowToContact (cleanData f m cp).cols (stdToOrig m)))
    have hmaplen : ((cleanData f m cp).rows.map
        (rowToContact (cleanData f m cp).cols (stdToOrig m))).length
        = (cleanData f m cp).rows.length := List.length_map _ _
    have hclean := cleanData_rows_length f m cp
    have hcount : (toContactList (cleanData f m cp) m).length
        = (((cleanData f m cp).rows.map
            (rowToContact (cleanData f m cp).cols (stdToOrig m))).filter
              (fun c => truthyGet c "name" || truthyGet c "phone")).length := by
      rw [hret]
    simp only [processFailedCount, hC, Bool.false_eq_true, if_false, Nat.zero_add]
    omega
  | true =>
    have hC : convertedFrame f m cp true = (deduplicate (cleanData f m cp) m).1 := by
      simp [convertedFrame]
    have hded := deduplicate_length (cleanData f m cp) m
    have hclean := cleanData_rows_length f m cp
    have hsplit := filter_length_split
      (fun c => truthyGet c "name" || truthyGet c "phone")
      ((deduplicate (cleanData f m cp) m).1.rows.map
        (rowToContact (deduplicate (cleanData f m cp) m).1.cols (stdToOrig m)))
    have hmaplen : ((deduplicate (cleanData f m cp) m).1.rows.map
        (rowToContact (deduplicate (cleanData f m cp) m).1.cols (stdToOrig m))).length
        = (deduplicate (cleanData f m cp) m).1.rows.length := List.length_map _ _
    have hcount : (toContactList (deduplicate (cleanData f m cp) m).1 m).length
        = (((deduplicate (cleanData f m cp) m).1.rows.map
            (rowToContact (deduplicate (cleanData f m cp) m).1.cols (stdToOrig m))).filter
              (fun c => truthyGet c "name" || truthyGet c "phone")).length := by
      rw [hret]
    simp only [processFailedCount, hC, if_true]
    omega

/-! ## C10: column preservation under deduplication -/

/-- A name absent from a column list has no index. -/
theorem findIdx_eq_none {c : String} {l : List String} (h : c ∉ l) :
    findIdx c l = none := by
  induction l with
  | nil => rfl
  | cons x xs ih =>
    have hx : ¬ x = c := fun e => h (List.mem_cons.mpr (Or.inl e.symm))
    have hxs : c ∉ xs := fun hm => h (List.mem_cons_of_mem _ hm)
    simp [findIdx, hx, ih hxs]

/-- Index of a name first appearing right after a list not containing it. -/
theorem findIdx_append_self {c : String} {l : List String} (h : c ∉ l)
    (rest : List String) : findIdx c (l ++ c :: rest) = some l.length := by
  induction l with
  | nil => simp [findIdx]
  | cons x xs ih =>
    have hx : ¬ x = c := fun e => h (List.mem_cons.mpr (Or.inl e.symm))
    have hxs : c ∉ xs := fun hm => h (List.mem_cons_of_mem _ hm)
    simp [findIdx, hx, ih hxs]

/-- Assigning a fresh column appends it. -/
theorem setColBy_fresh (f : Frame) (c : String)
    (g : List (Option String) → Option String) (h : c ∉ f.cols) :
    f.setColBy c g = ⟨f.cols ++ [c], f.rows.map (fun r => r ++ [g r])⟩ := by
  unfold Frame.setColBy
  rw [findIdx_eq_none h]

/-- Dropping an absent column is the identity. -/
theorem dropCol_absent (cols0 : List String) (rows0 : List (List (Option String)))
    (c : String) (h : c ∉ cols0) :
    (⟨cols0, rows0⟩ : Frame).dropCol c = ⟨cols0, rows0⟩ := by
  unfold Frame.dropCol
  rw [findIdx_eq_none h]

/-- Erasing the element right after a prefix of known length. -/
theorem eraseIdx_append_length {α : Type} (l : List α) (x : α) (rest : List α) :
    (l ++ x :: rest).eraseIdx l.length = l ++ rest := by
  induction l with
  | nil => rfl
  | cons a as ih => simpa [List.eraseIdx] using ih

/-- Dropping a column that sits right after the original columns. -/
theorem dropCol_appended (cols1 : List String) (rest : List String)
    (rows : List (List (Option String))) (c : String) (h : c ∉ cols1) :
    (⟨cols1 ++ c :: rest, rows⟩ : Frame).dropCol c
      = ⟨cols1 ++ rest, rows.map (·.eraseIdx cols1.length)⟩ := by
  unfold Frame.dropCol
  rw [findIdx_append_self h rest]
  rw [Frame.mk.injEq]
  exact ⟨eraseIdx_append_length cols1 c rest, rfl⟩

/-- The three-step temp-column cleanup restores the original columns for
every shape of appended temp columns the deduplicator can produce. -/
theorem dropColsTemp (cols1 : List String) (rows : List (List (Option String)))
    (added : List String)
    (h1 : "_phone_normalized" ∉ cols1) (h2 : "_email_normalized" ∉ cols1)
    (h3 : "_name_normalized" ∉ cols1)
    (hadd : added = ["_phone_normalized"] ∨ added = ["_email_normalized"]
      ∨ added = ["_name_normalized"]
      ∨ added = ["_phone_normalized", "_email_normalized"]) :
    ((((⟨cols1 ++ added, rows⟩ : Frame).dropCol "_phone_normalized").dropCol
        "_email_normalized").dropCol "_name_normalized").cols = cols1 := by
  rcases hadd with rfl | rfl | rfl | rfl
  · rw [dropCol_appended cols1 [] rows _ h1, List.append_nil]
    rw [dropCol_absent cols1 _ "_email_normalized" h2]
    rw [dropCol_absent cols1 _ "_name_normalized" h3]
  · have ha : "_phone_normalized" ∉ cols1 ++ ["_email_normalized"] := by simp [h1]
    rw [dropCol_absent (cols1 ++ ["_email_normalized"]) rows _ ha]
    rw [dropCol_appended cols1 [] rows _ h2, List.append_nil]
    rw [dropCol_absent cols1 _ "_name_normalized" h3]
  · have ha : "_phone_normalized" ∉ cols1 ++ ["_name_normalized"] := by simp [h1]
    have hbm : "_email_normalized" ∉ cols1 ++ ["_name_normalized"] := by simp [h2]
    rw [dropCol_absent (cols1 ++ ["_name_normalized"]) rows _ ha]
    rw [dropCol_absent (cols1 ++ ["_name_normalized"]) rows _ hbm]
    rw [dropCol_appended cols1 [] rows _ h3, List.append_nil]
  · rw [dropCol_appended cols1 ["_email_normalized"] rows _ h1]
    rw [dropCol_appended cols1 [] _ _ h2, List.append_nil]
    rw [dropCol_absent cols1 _ "_name_normalized" h3]

/-- C10, counterexample: an input column that uses one of the reserved
temporary names is dropped from the returned dataset, so the column sets
differ. -/
theorem c10_counterexample :
    (deduplicate exFrameTemp exMapPhone).1.cols ≠ exFrameTemp.cols
      ∧ "_email_normalized" ∈ exFrameTemp.cols := by
  decide

/-- C10, amended: whenever the input dataset uses none of the reserved
temporary column names, the deduplicated dataset has exactly the input's
column set and no temporary column appears in it. -/
theorem c10_amended (f : Frame) (m : Mapping)
    (ht : ∀ t ∈ tempCols, t ∉ f.cols) :
    (deduplicate f m).1.cols = f.cols
      ∧ ∀ t ∈ tempCols, t ∉ (deduplicate f m).1.cols := by
  have h1 : "_phone_normalized" ∉ f.cols := ht _ (by simp [tempCols])
  have h2 : "_email_normalized" ∉ f.cols := ht _ (by simp [tempCols])
  have h3 : "_name_normalized" ∉ f.cols := ht _ (by simp [tempCols])
  suffices hcols : (deduplicate f m).1.cols = f.cols by
    exact ⟨hcols, fun t htm => hcols ▸ ht t htm⟩
  by_cases hfe : f.isEmpty = true
  · simp [deduplicate, hfe]
  · have hb : f.isEmpty = false := Bool.eq_false_iff.mpr hfe
    rcases hp : stdLookup m "phone" with _ | pc <;>
      rcases he : stdLookup m "email" with _ | ec <;>
        rcases hn : stdLookup m "name" with _ | nc <;>
          simp only [deduplicate, hb, Bool.false_eq_true, if_false, hp, he, hn,
            List.nil_append, List.cons_append, List.append_nil, List.isEmpty_nil,
            List.isEmpty_cons, eq_self_iff_true, if_true, if_false]
    · rw [setColBy_fresh f _ _ h3]
      exact dropColsTemp f.cols _ _ h1 h2 h3 (Or.inr (Or.inr (Or.inl rfl)))
    · rw [setColBy_fresh f _ _ h2]
      exact dropColsTemp f.cols _ _ h1 h2 h3 (Or.inr (Or.inl rfl))
    · rw [setColBy_fresh f _ _ h2]
      exact dropColsTemp f.cols _ _ h1 h2 h3 (Or.inr (Or.inl rfl))
    · rw [setColBy_fresh f _ _ h1]
      exact dropColsTemp f.cols _ _ h1 h2 h3 (Or.inl rfl)
    · rw [setColBy_fresh f _ _ h1]
      exact dropColsTemp f.cols _ _ h1 h2 h3 (Or.inl rfl)
    · rw [setColBy_fresh f _ _ h1]
      rw [setColBy_fresh _ _ _ (by simp [h2])]
      rw [List.append_assoc]
      exact dropColsTemp f.cols _ _ h1 h2 h3 (Or.inr (Or.inr (Or.inr rfl)))
    · rw [setColBy_fresh f _ _ h1]
      rw [setColBy_fresh _ _ _ (by simp [h2])]
      rw [List.append_assoc]
      exact dropColsTemp f.cols _ _ h1 h2 h3 (Or.inr (Or.inr (Or.inr rfl)))

/-- C10, witness: the amended theorem at a concrete clean frame. -/
theorem c10_witness :
    (deduplicate exFrameDedup exMapPE).1.cols = exFrameDedup.cols
      ∧ ∀ t ∈ tempCols, t ∉ (deduplicate exFrameDedup exMapPE).1.cols :=
  c10_amended exFrameDedup exMapPE (by decide)

/-! ## C1: the dedup key is compound, not phone-alone -/

/-- `keepFirstAux` only depends on the key values of the list members. -/
theorem keepFirstAux_congr {α K : Type} [DecidableEq K] (k1 k2 : α → K)
    (seen : List K) (l : List α) (h : ∀ a ∈ l, k1 a = k2 a) :
    keepFirstAux k1 seen l = keepFirstAux k2 seen l := by
  induction l generalizing seen with
  | nil => rfl
  | cons a as ih =>
    have ha := h a (List.mem_cons_self a as)
    have hrest : ∀ b ∈ as, k1 b = k2 b := fun b hb => h b (List.mem_cons_of_mem a hb)
    simp only [keepFirstAux, ha]
    by_cases hs : seen.contains (k2 a) = true
    · rw [if_pos hs, if_pos hs, ih seen hrest]
    · rw [if_neg hs, if_neg hs, ih (k2 a :: seen) hrest]

/-- `keepFirstAux` over a mapped list. -/
theorem keepFirstAux_map {α β K : Type} [DecidableEq K] (e : α → β) (key : β → K)
    (seen : List K) (l : List α) :
    keepFirstAux key seen (l.map e) = (keepFirstAux (fun a => key (e a)) seen l).map e := by
  induction l generalizing seen with
  | nil => rfl
  | cons a as ih =>
    simp only [List.map_cons, keepFirstAux]
    by_cases hs : seen.contains (key (e a)) = true
    · rw [if_pos hs, if_pos hs, ih seen]
    · rw [if_neg hs, if_neg hs, ih (key (e a) :: seen), List.map_cons]

/-- `keepFirstBy` over a mapped list. -/
theorem keepFirstBy_map {α β K : Type} [DecidableEq K] (e : α → β) (key : β → K)
    (l : List α) :
    keepFirstBy key (l.map e) = (keepFirstBy (fun a => key (e a)) l).map e :=
  keepFirstAux_map e key [] l

/-- `keepFirstBy` only depends on the key values of the list members. -/
theorem keepFirstBy_congr {α K : Type} [DecidableEq K] (k1 k2 : α → K) (l : List α)
    (h : ∀ a ∈ l, k1 a = k2 a) : keepFirstBy k1 l = keepFirstBy k2 l :=
  keepFirstAux_congr k1 k2 [] l h

/-- Rows kept by `keepFirstAux` come from the input list. -/
theorem keepFirstAux_subset {α K : Type} [DecidableEq K] {key : α → K}
    {seen : List K} {l : List α} {a : α} (h : a ∈ keepFirstAux key seen l) : a ∈ l := by
  induction l generalizing seen with
  | nil => cases h
  | cons b bs ih =>
    simp only [keepFirstAux] at h
    by_cases hs : seen.contains (key b) = true
    · rw [if_pos hs] at h
      exact List.mem_cons_of_mem b (ih h)
    · rw [if_neg hs] at h
      rcases List.mem_cons.mp h with rfl | h
      · exact List.mem_cons_self _ _
      · exact List.mem_cons_of_mem _ (ih h)

/-- A column of the left part of an appended list is found there. -/
theorem findIdx_append_left {c : String} {l1 : List String} (h : c ∈ l1)
    (l2 : List String) : findIdx c (l1 ++ l2) = findIdx c l1 := by
  induction l1 with
  | nil => cases h
  | cons x xs ih =>
    by_cases hx : x = c
    · simp [findIdx, hx]
    · rcases List.mem_cons.mp h with rfl | h
      · exact absurd rfl hx
      · simp [findIdx, hx, ih h]

/-- A found column index is in range. -/
theorem findIdx_lt {c : String} {l : List String} {i : Nat}
    (h : findIdx c l = some i) : i < l.length := by
  induction l generalizing i with
  | nil => cases h
  | cons x xs ih =>
    by_cases hx : x = c
    · simp only [findIdx, if_pos hx] at h
      rcases Option.some.inj h with rfl
      simp
    · simp only [findIdx, if_neg hx] at h
      cases hj : findIdx c xs with
      | none =>
        rw [hj] at h
        cases h
      | some j =>
        rw [hj] at h
        have : j + 1 = i := Option.some.inj h
        have hjl := ih hj
        simp only [List.length_cons]
        omega

/-- Reading an original column is unaffected by appended columns and cells. -/
theorem cellAt_extend (cols added : List String) (c : String)
    (r xs : List (Option String)) (hc : c ∈ cols) (hr : r.length = cols.length) :
    cellAt (cols ++ added) c (r ++ xs) = cellAt cols c r := by
  unfold cellAt
  rw [findIdx_append_left hc added]
  cases hfi : findIdx c cols with
  | none => rfl
  | some i =>
    have hi : i < r.length := by
      rw [hr]
      exact findIdx_lt hfi
    exact List.getD_append r xs none i hi

/-- `getD` at the length of the left list reads the first appended cell. -/
theorem getD_append_at_length {α : Type} (l : List α) (x : α) (xs : List α) (d : α) :
    (l ++ x :: xs).getD l.length d = x := by
  induction l with
  | nil => rfl
  | cons a as ih => simpa using ih

/-- `cellAt` through a known column index. -/
theorem cellAt_of_findIdx (cols : List String) (c : String)
    (r : List (Option String)) (i : Nat) (h : findIdx c cols = some i) :
    cellAt cols c r = r.getD i none := by
  unfold cellAt
  rw [h]

/-- The compound key computed on an extended row equals `phoneEmailKey` on
the original row. -/
theorem hkeyMain (f : Frame) (pc ec : String)
    (hrect : ∀ r ∈ f.rows, r.length = f.cols.length) (hec : ec ∈ f.cols)
    (h1 : "_phone_normalized" ∉ f.cols)
    (hte : "_email_normalized" ∉ f.cols ++ ["_phone_normalized"]) :
    ∀ r ∈ f.rows,
      [cellAt (f.cols ++ ["_phone_normalized"] ++ ["_email_normalized"]) "_phone_normalized"
          (((fun r => r ++ [some (lowerStripCell (cellAt (f.cols ++ ["_phone_normalized"]) ec r))]) ∘
              fun r => r ++ [some (normPhoneCell (cellAt f.cols pc r))]) r),
        cellAt (f.cols ++ ["_phone_normalized"] ++ ["_email_normalized"]) "_email_normalized"
          (((fun r => r ++ [some (lowerStripCell (cellAt (f.cols ++ ["_phone_normalized"]) ec r))]) ∘
              fun r => r ++ [some (normPhoneCell (cellAt f.cols pc r))]) r)]
        = phoneEmailKey f.cols pc ec r := by
  intro r hr
  have hrl : r.length = f.cols.length := hrect r hr
  simp only [Function.comp_apply]
  unfold phoneEmailKey
  have e1 : cellAt (f.cols ++ ["_phone_normalized"] ++ ["_email_normalized"]) "_phone_normalized"
      ((r ++ [some (normPhoneCell (cellAt f.cols pc r))])
        ++ [some (lowerStripCell (cellAt (f.cols ++ ["_phone_normalized"]) ec
            (r ++ [some (normPhoneCell (cellAt f.cols pc r))])))])
      = some (normPhoneCell (cellAt f.cols pc r)) := by
    rw [cellAt_of_findIdx _ _ _ f.cols.length
      (by rw [findIdx_append_left (by simp) ["_email_normalized"]]
          exact findIdx_append_self h1 [])]
    rw [List.append_assoc, List.singleton_append]
    rw [← hrl]
    exact getD_append_at_length r _ _ none
  have e2 : cellAt (f.cols ++ ["_phone_normalized"] ++ ["_email_normalized"]) "_email_normalized"
      ((r ++ [some (normPhoneCell (cellAt f.cols pc r))])
        ++ [some (lowerStripCell (cellAt (f.cols ++ ["_phone_normalized"]) ec
            (r ++ [some (normPhoneCell (cellAt f.cols pc r))])))])
      = some (lowerStripCell (cellAt f.cols ec r)) := by
    rw [cellAt_of_findIdx _ _ _ _ (findIdx_append_self hte [])]
    have hlen : (f.cols ++ ["_phone_normalized"]).length
        = (r ++ [some (normPhoneCell (cellAt f.cols pc r))]).length := by
      simp [hrl]
    rw [hlen]
    rw [getD_append_at_length]
    rw [cellAt_extend f.cols ["_phone_normalized"] ec r _ hec hrl]
  rw [e1, e2]

/-- Double `eraseIdx` at the original width undoes the two appended cells. -/
theorem hidMain (f : Frame) (pc ec : String)
    (hrect : ∀ r ∈ f.rows, r.length = f.cols.length) :
    ∀ r ∈ keepFirstBy (phoneEmailKey f.cols pc ec) f.rows,
      (((fun l : List (Option String) => l.eraseIdx f.cols.length) ∘
          fun l : List (Option String) => l.eraseIdx f.cols.length) ∘
        ((fun r => r ++ [some (lowerStripCell (cellAt (f.cols ++ ["_phone_normalized"]) ec r))]) ∘
          fun r => r ++ [some (normPhoneCell (cellAt f.cols pc r))])) r = r := by
  intro r hr
  have hrl : r.length = f.cols.length := hrect r (keepFirstAux_subset hr)
  simp only [Function.comp_apply]
  rw [List.append_assoc, List.singleton_append]
  rw [← hrl]
  rw [eraseIdx_append_length r _ _]
  rw [eraseIdx_append_length r _ []]
  exact List.append_nil r

/-- C1, counterexample: with both phone and email mapped, two rows carrying
the SAME normalized phone but different emails are both retained — the
deduplicator removes by the compound (phone, email) key, not by phone
alone, and reports `duplicates_removed = 0`. -/
theorem c1_counterexample :
    normPhoneCell ((exFrameDedup.rows.getD 0 []).getD 0 none)
        = normPhoneCell ((exFrameDedup.rows.getD 1 []).getD 0 none)
      ∧ (deduplicate exFrameDedup exMapPE).1.rows.length = 2
      ∧ (deduplicate exFrameDedup exMapPE).2.1 = 0 := by
  decide

/-- C1, amended: when both a phone and an email column are mapped, the
deduplicated rows are exactly the input rows kept at the first occurrence
of the compound key (normalized phone, normalized email); phone alone is
never the removal key in that situation (name is used only when neither
phone nor email is mapped). -/
theorem c1_dedup_compound_key (f : Frame) (m : Mapping) (pc ec : String)
    (hp : stdLookup m "phone" = some pc) (he : stdLookup m "email" = some ec)
    (hpc : pc ∈ f.cols) (hec : ec ∈ f.cols)
    (ht : ∀ t ∈ tempCols, t ∉ f.cols)
    (hrect : ∀ r ∈ f.rows, r.length = f.cols.length) :
    (deduplicate f m).1.rows = keepFirstBy (phoneEmailKey f.cols pc ec) f.rows := by
  have h1 : "_phone_normalized" ∉ f.cols := ht _ (by simp [tempCols])
  have h2 : "_email_normalized" ∉ f.cols := ht _ (by simp [tempCols])
  have h3 : "_name_normalized" ∉ f.cols := ht _ (by simp [tempCols])
  by_cases hfe : f.isEmpty = true
  · have hrows : f.rows = [] := by
      unfold Frame.isEmpty at hfe
      rw [Bool.or_eq_true] at hfe
      rcases hfe with hfe | hfe
      · exact List.isEmpty_iff.mp hfe
      · rw [List.isEmpty_iff.mp hfe] at hpc
        cases hpc
    have hded : deduplicate f m = (f, 0, []) := by
      unfold deduplicate
      rw [if_pos hfe]
    rw [hded]
    show f.rows = _
    rw [hrows]
    rfl
  · have hb : f.isEmpty = false := Bool.eq_false_iff.mpr hfe
    have hte : "_email_normalized" ∉ f.cols ++ ["_phone_normalized"] := by simp [h2]
    cases hn : stdLookup m "name" <;>
      simp only [deduplicate, hb, Bool.false_eq_true, if_false, hp, he, hn,
        List.cons_append, List.nil_append, List.append_nil, List.isEmpty_cons,
        eq_self_iff_true, if_true, if_false, List.map_cons, List.map_nil] <;>
      (rw [setColBy_fresh f _ _ h1]
       rw [setColBy_fresh ⟨f.cols ++ ["_phone_normalized"],
            f.rows.map (fun r => r ++ [some (normPhoneCell (cellAt f.cols pc r))])⟩
            "_email_normalized" _ hte]
       dsimp only
       rw [List.map_map]
       rw [keepFirstBy_map]
       rw [keepFirstBy_congr _ _ f.rows (hkeyMain f pc ec hrect hec h1 hte)]
       rw [List.append_assoc f.cols ["_phone_normalized"] ["_email_normalized"]]
       rw [List.singleton_append]
       rw [dropCol_appended f.cols ["_email_normalized"] _ _ h1]
       rw [dropCol_appended f.cols [] _ _ h2, List.append_nil]
       rw [dropCol_absent f.cols _ _ h3]
       rw [List.map_map, List.map_map]
       rw [List.map_congr_left (hidMain f pc ec hrect)]
       simp)


/-- C1, witness: the compound-key characterization at a concrete frame with
both phone and email mapped. -/
theorem c1_witness :
    (deduplicate exFrameDedup exMapPE).1.rows
      = keepFirstBy (phoneEmailKey exFrameDedup.cols "phone" "email") exFrameDedup.rows :=
  c1_dedup_compound_key exFrameDedup exMapPE "phone" "email" (by decide) (by decide)
    (by decide) (by decide) (by decide) (by decide)

/-! ## C4: formatting round-trip for valid mobile numbers -/

/-- A digits-only list has no leading `+` to strip. -/
theorem dropWhile_plus_of_digits (l : List Char) :
    (l.filter Char.isDigit).dropWhile (· == '+') = l.filter Char.isDigit := by
  cases h : l.filter Char.isDigit with
  | nil => simp
  | cons c cs =>
    have hc : c.isDigit = true := by
      have hmem : c ∈ l.filter Char.isDigit := by
        rw [h]
        exact List.mem_cons_self _ _
      exact (List.mem_filter.mp hmem).2
    have hcp : (c == '+') = false := by
      by_cases h2 : (c == '+') = true
      · rw [beq_iff_eq] at h2
        subst h2
        cases hc
      · exact Bool.eq_false_iff.mpr h2
    simp [List.dropWhile_cons, hcp]

/-- Cleaning then stripping `+` leaves exactly the digit characters. -/
theorem dropPlus_clean (s : String) :
    dropPlus (cleanPhoneNumber s).data = s.data.filter Char.isDigit := by
  simp only [cleanPhoneNumber, dropPlus]
  by_cases hs : s = ""
  · simp [hs]
  · rw [if_neg hs]
    by_cases hp : listStarts ['+'] (pyStrip s.data) = true
    · rw [if_pos hp]
      show ('+' :: s.data.filter Char.isDigit).dropWhile (· == '+') = _
      rw [List.dropWhile_cons]
      simp [dropWhile_plus_of_digits]
    · rw [if_neg hp]
      exact dropWhile_plus_of_digits s.data

/-- Every character of the stripped core is a digit. -/
theorem core_digits (s : String) : ∀ ch ∈ strippedCore s, ch.isDigit = true := by
  intro ch hch
  have hall : ∀ x ∈ s.data.filter Char.isDigit, x.isDigit = true :=
    fun x hx => (List.mem_filter.mp hx).2
  simp only [strippedCore, dropPlus_clean] at hch
  revert hch
  split <;> split <;> intro hch <;>
    first
      | exact hall _ (List.drop_subset _ _ (List.drop_subset _ _ hch))
      | exact hall _ (List.drop_subset _ _ hch)
      | exact hall _ hch

/-- Inversion of a two-character `startswith`. -/
theorem starts_two {a b : Char} {l : List Char} (h : listStarts [a, b] l = true) :
    l = a :: b :: l.drop 2 := by
  match l with
  | [] => cases h
  | [x] => simp [listStarts] at h
  | x :: y :: rest =>
    simp only [listStarts, Bool.and_eq_true, beq_iff_eq] at h
    obtain ⟨rfl, rfl, -⟩ := h
    rfl

/-- Inversion of a one-character `startswith`. -/
theorem starts_one {a : Char} {l : List Char} (h : listStarts [a] l = true) :
    l = a :: l.drop 1 := by
  match l with
  | [] => cases h
  | x :: rest =>
    simp only [listStarts, Bool.and_eq_true, beq_iff_eq] at h
    obtain ⟨rfl, -⟩ := h
    rfl

/-- A validated number is non-empty with a core of 8 to 10 digits. -/
theorem validate_bounds {s : String} (h : (validateMalaysianPhone s).1 = true) :
    ¬ s = "" ∧ 8 ≤ (strippedCore s).length ∧ (strippedCore s).length ≤ 10 := by
  by_cases hs : s = ""
  · rw [hs] at h
    exact absurd h (by decide)
  · have h8 : 8 ≤ (strippedCore s).length := by
      by_contra hlen
      rw [Nat.not_le] at hlen
      simp only [validateMalaysianPhone, if_neg hs, if_pos hlen] at h
      exact absurd h (by decide)
    have h10 : (strippedCore s).length ≤ 10 := by
      by_contra hlen
      rw [Nat.not_le] at hlen
      have hn8 : ¬ (strippedCore s).length < 8 := by omega
      have hgt : (strippedCore s).length > 10 := by omega
      simp only [validateMalaysianPhone, if_neg hs, if_neg hn8, if_pos hgt] at h
      exact absurd h (by decide)
    exact ⟨hs, h8, h10⟩

/-- Unfolding `format_malaysian_phone` on a valid mobile input. -/
theorem format_mobile {s : String} (hs : ¬ s = "")
    (h8 : 8 ≤ (strippedCore s).length) (h10 : (strippedCore s).length ≤ 10)
    (hmob : (mobilePrefixes.any fun p => listStarts p.data (strippedCore s)) = true) :
    formatMalaysianPhone s = some (String.mk
      (if 9 ≤ (strippedCore s).length then
        "+60 ".data ++ (strippedCore s).take 2 ++ ['-'] ++ ((strippedCore s).drop 2).take 3
          ++ [' '] ++ (strippedCore s).drop 5
       else "+60 ".data ++ (strippedCore s).take 2 ++ ['-'] ++ (strippedCore s).drop 2)) := by
  have hcond : (decide ((strippedCore s).length < 8)
      || decide ((strippedCore s).length > 10)) = false := by
    simp only [Bool.or_eq_false_iff, decide_eq_false_iff_not]
    omega
  simp only [formatMalaysianPhone, if_neg hs, hcond, Bool.false_eq_true, if_false,
    hmob, Bool.not_true, Bool.false_and, if_true]

/-- The digit characters of both mobile format shapes are `60` followed by
the core. -/
theorem format_digits (core : List Char) (hd : ∀ ch ∈ core, ch.isDigit = true) :
    (("+60 ".data ++ core.take 2 ++ ['-'] ++ (core.drop 2).take 3 ++ [' ']
        ++ core.drop 5).filter Char.isDigit) = '6' :: '0' :: core
    ∧ (("+60 ".data ++ core.take 2 ++ ['-'] ++ core.drop 2).filter Char.isDigit)
        = '6' :: '0' :: core := by
  have htake2 : (core.take 2).filter Char.isDigit = core.take 2 :=
    List.filter_eq_self.mpr (fun ch hch => hd ch (List.take_subset 2 core hch))
  have hdrop2 : (core.drop 2).filter Char.isDigit = core.drop 2 :=
    List.filter_eq_self.mpr (fun ch hch => hd ch (List.drop_subset 2 core hch))
  have hdrop5 : (core.drop 5).filter Char.isDigit = core.drop 5 :=
    List.filter_eq_self.mpr (fun ch hch => hd ch (List.drop_subset 5 core hch))
  have hdt : ((core.drop 2).take 3).filter Char.isDigit = (core.drop 2).take 3 :=
    List.filter_eq_self.mpr (fun ch hch =>
      hd ch (List.drop_subset 2 core (List.take_subset 3 (core.drop 2) hch)))
  have hpre : ("+60 ".data.filter Char.isDigit) = ['6', '0'] := by decide
  have hdash : (['-'].filter Char.isDigit) = [] := by decide
  have hsp : ([' '].filter Char.isDigit) = [] := by decide
  have hrec : core.take 2 ++ ((core.drop 2).take 3 ++ core.drop 5) = core := by
    have h5 : core.drop 5 = (core.drop 2).drop 3 := by
      rw [List.drop_drop]
    rw [h5, List.take_append_drop, List.take_append_drop]
  have hrec2 : core.take 2 ++ core.drop 2 = core := List.take_append_drop 2 core
  constructor
  · rw [List.filter_append, List.filter_append, List.filter_append,
      List.filter_append, List.filter_append]
    rw [htake2, hdrop5, hdt, hpre, hdash, hsp]
    simp only [List.append_nil, List.nil_append, List.cons_append, List.append_assoc]
    rw [hrec]
  · rw [List.filter_append, List.filter_append, List.filter_append]
    rw [htake2, hdrop2, hpre, hdash]
    simp only [List.append_nil, List.nil_append, List.cons_append, List.append_assoc]
    rw [hrec2]

/-- Dropping a prefix predicate never eats a final element it rejects. -/
theorem dropWhile_append_keep {p : Char → Bool} {c : Char} (hc : p c = false)
    (xs : List Char) : ∃ ys, (xs ++ [c]).dropWhile p = ys ++ [c] := by
  induction xs with
  | nil => exact ⟨[], by simp [List.dropWhile_cons, hc]⟩
  | cons x xt ih =>
    by_cases hx : p x = true
    · rcases ih with ⟨ys, hys⟩
      exact ⟨ys, by simp [List.dropWhile_cons, hx, hys]⟩
    · exact ⟨x :: xt, by simp [List.dropWhile_cons, hx]⟩

/-- A non-whitespace head survives the right trim. -/
theorem rightTrim_head {c : Char} (hc : c.isWhitespace = false) (l : List Char) :
    ∃ t, rightTrim (c :: l) = c :: t := by
  unfold rightTrim
  rw [List.reverse_cons]
  rcases dropWhile_append_keep hc l.reverse with ⟨ys, hys⟩
  refine ⟨ys.reverse, ?_⟩
  rw [hys, List.reverse_append]
  simp

/-- The strip of a `+`-headed string still starts with `+`. -/
theorem pyStrip_head_plus (rest : List Char) :
    listStarts ['+'] (pyStrip ('+' :: rest)) = true := by
  unfold pyStrip
  rw [List.dropWhile_cons]
  rw [if_neg (by decide : ¬ (('+' : Char).isWhitespace = true))]
  rcases @rightTrim_head '+' (by decide) rest with ⟨t, ht⟩
  rw [ht]
  simp [listStarts]

/-- Cleaning a `+`-headed string keeps the `+` and the digits. -/
theorem clean_mk_plus (rest : List Char) :
    (cleanPhoneNumber (String.mk ('+' :: rest))).data
      = '+' :: ('+' :: rest).filter Char.isDigit := by
  have hne : String.mk ('+' :: rest) ≠ "" := by
    intro h
    have h2 := congrArg String.data h
    cases h2
  simp only [cleanPhoneNumber, if_neg hne]
  rw [if_pos (pyStrip_head_plus rest)]

/-- Normalizing a formatted string whose digits are `60` + core. -/
theorem normalize_formatted (F : List Char) (core : List Char)
    (hfd : ('+' :: F).filter Char.isDigit = '6' :: '0' :: core) :
    normalizePhoneForComparison (String.mk ('+' :: F)) = String.mk ('6' :: '0' :: core) := by
  have hne : String.mk ('+' :: F) ≠ "" := by
    intro h
    have h2 := congrArg String.data h
    cases h2
  simp only [normalizePhoneForComparison, if_neg hne, dropPlus_clean]
  rw [hfd]
  rw [if_pos (show listStarts ['6', '0'] ('6' :: '0' :: core) = true from rfl)]

/-- For inputs without a doubled `60…0` prefix, normalization is `60` + the
stripped core. -/
theorem normalize_input (s : String) (hs : ¬ s = "")
    (hshape : ¬ (listStarts ['6', '0'] (s.data.filter Char.isDigit) = true
      ∧ listStarts ['0'] ((s.data.filter Char.isDigit).drop 2) = true)) :
    normalizePhoneForComparison s = String.mk ('6' :: '0' :: strippedCore s) := by
  simp only [normalizePhoneForComparison, if_neg hs, dropPlus_clean, strippedCore]
  by_cases h60 : listStarts ['6', '0'] (s.data.filter Char.isDigit) = true
  · have h0 : ¬ listStarts ['0'] ((s.data.filter Char.isDigit).drop 2) = true :=
      fun hh => hshape ⟨h60, hh⟩
    rw [if_pos h60, if_pos h60, if_neg h0]
    conv_lhs => rw [starts_two h60]
  · rw [if_neg h60, if_neg h60]
    by_cases h0 : listStarts ['0'] (s.data.filter Char.isDigit) = true
    · rw [if_pos h0, if_pos h0]
    · rw [if_neg h0, if_neg h0]

/-- Cleaning does not change the stripped core. -/
theorem strippedCore_clean (s : String) :
    strippedCore (cleanPhoneNumber s) = strippedCore s := by
  have hf : (cleanPhoneNumber s).data.filter Char.isDigit
      = s.data.filter Char.isDigit := by
    have hff : (s.data.filter Char.isDigit).filter Char.isDigit
        = s.data.filter Char.isDigit :=
      List.filter_eq_self.mpr (fun a ha => (List.mem_filter.mp ha).2)
    simp only [cleanPhoneNumber]
    by_cases hs : s = ""
    · simp [hs]
    · rw [if_neg hs]
      by_cases hp : listStarts ['+'] (pyStrip s.data) = true
      · rw [if_pos hp]
        show ('+' :: s.data.filter Char.isDigit).filter Char.isDigit = _
        rw [List.filter_cons]
        simp [hff]
      · rw [if_neg hp]
        exact hff
  simp only [strippedCore, dropPlus_clean, hf]

/-- A string with at least one digit cleans to a non-empty phone string. -/
theorem clean_ne_empty {s : String} (h : ¬ s.data.filter Char.isDigit = []) :
    ¬ cleanPhoneNumber s = "" := by
  intro he
  have h2 := dropPlus_clean s
  rw [he] at h2
  exact h (by
    rw [← h2]
    rfl)

/-- C4, counterexample: `"600123456789"` is accepted by the validator as a
mobile number (country code then a 0-prefixed local form), formats fine —
but the normalization round-trip fails, because
`normalize_phone_for_comparison` keeps the doubled `600…` digits while
formatting strips them. -/
theorem c4_counterexample :
    isValidMobile "600123456789" = true
      ∧ (formatMalaysianPhone "600123456789").isSome = true
      ∧ ¬ normalizePhoneForComparison ((formatMalaysianPhone "600123456789").getD "")
          = normalizePhoneForComparison "600123456789" := by
  decide

/-- C4, amended: for every input the code validates as a Malaysian mobile
number whose digit string does not carry both the country code and a
leading zero (i.e. not of the shape `60` `0…`), `format(clean(n))` is
non-null and `normalizeForComparison(format(n)) = normalizeForComparison(n)`. -/
theorem c4_format_roundtrip (s : String) (hm : isValidMobile s = true)
    (hshape : ¬ (listStarts ['6', '0'] (s.data.filter Char.isDigit) = true
      ∧ listStarts ['0'] ((s.data.filter Char.isDigit).drop 2) = true)) :
    (formatMalaysianPhone (cleanPhoneNumber s)).isSome = true
      ∧ ∃ out, formatMalaysianPhone s = some out
        ∧ normalizePhoneForComparison out = normalizePhoneForComparison s := by
  simp only [isValidMobile, Bool.and_eq_true] at hm
  obtain ⟨hv, hmob⟩ := hm
  obtain ⟨hs, h8, h10⟩ := validate_bounds hv
  have hd := core_digits s
  constructor
  · have hfnil : ¬ s.data.filter Char.isDigit = [] := by
      intro hnil
      have hcl : (strippedCore s).length = 0 := by
        simp only [strippedCore, dropPlus_clean, hnil]
        simp [listStarts]
      omega
    have hcne : ¬ cleanPhoneNumber s = "" := clean_ne_empty hfnil
    have h8c : 8 ≤ (strippedCore (cleanPhoneNumber s)).length := by
      rw [strippedCore_clean]
      exact h8
    have h10c : (strippedCore (cleanPhoneNumber s)).length ≤ 10 := by
      rw [strippedCore_clean]
      exact h10
    have hmobc : (mobilePrefixes.any fun p =>
        listStarts p.data (strippedCore (cleanPhoneNumber s))) = true := by
      rw [strippedCore_clean]
      exact hmob
    rw [format_mobile hcne h8c h10c hmobc]
    rfl
  · refine ⟨_, format_mobile hs h8 h10 hmob, ?_⟩
    rw [normalize_input s hs hshape]
    by_cases h9 : 9 ≤ (strippedCore s).length
    · rw [if_pos h9]
      have hfd := (format_digits (strippedCore s) hd).1
      rw [show ("+60 ".data : List Char) = '+' :: '6' :: '0' :: [' '] from rfl] at hfd ⊢
      simp only [List.cons_append, List.nil_append, List.append_assoc] at hfd ⊢
      exact normalize_formatted _ _ hfd
    · rw [if_neg h9]
      have hfd := (format_digits (strippedCore s) hd).2
      rw [show ("+60 ".data : List Char) = '+' :: '6' :: '0' :: [' '] from rfl] at hfd ⊢
      simp only [List.cons_append, List.nil_append, List.append_assoc] at hfd ⊢
      exact normalize_formatted _ _ hfd

/-- C4, witness: the round-trip at a concrete valid mobile number. -/
theorem c4_witness :
    (formatMalaysianPhone (cleanPhoneNumber "012-345 6789")).isSome = true
      ∧ ∃ out, formatMalaysianPhone "012-345 6789" = some out
        ∧ normalizePhoneForComparison out
            = normalizePhoneForComparison "012-345 6789" :=
  c4_format_roundtrip "012-345 6789" (by decide) (by decide)

end RM
